import Mathlib

/-!
# FileStreamWrapper (hphp/runtime/base/file-stream-wrapper.cpp)

A shallow embedding of the stream wrapper for plain files: scheme stripping,
path translation, the layered `open`, the metadata and mutation operations
and the recursive directory creation, together with the properties of them
that the specification states.

Strings are lists of characters (one character per byte).  Wherever the
source hands `s.data()` or `s.c_str()` to a function taking `const char*`,
the callee only sees the bytes before the first NUL byte; this is `cstr`.
-/

set_option autoImplicit false

namespace HPHP

/-- A string value: the bytes of an `HPHP::String`, in order. -/
abbrev Str := List Char

/-- The NUL byte that terminates a C string. -/
def NUL : Char := Char.ofNat 0

/-- The C string stored at the start of a byte buffer: everything before the
first NUL byte.  It is what a `const char*` parameter receives from
`s.data()`. -/
def cstr (s : Str) : Str := s.takeWhile (fun c => c != NUL)

/-- The literal `"file://"` of `removeScheme`; `sizeof("file://") - 1` is its
length, 7. -/
def fileScheme : Str := ['f', 'i', 'l', 'e', ':', '/', '/']

/-- C `strncmp(a, b, n)` on NUL-terminated buffers, given by their bytes (a
read at the end of the list is the terminating NUL): compares at most `n`
bytes, stops after a NUL, and returns 0 on equality and otherwise a value
whose sign tells the order of the first differing bytes. -/
def strncmp : Nat → Str → Str → Int
  | 0, _, _ => 0
  | n + 1, a, b =>
    let ca := a.headD NUL
    let cb := b.headD NUL
    if ca ≠ cb then (if ca < cb then -1 else 1)
    else if ca = NUL then 0
    else strncmp n a.tail b.tail

/-- Source lines 45-49:
`!strncmp(filename.data(), "file://", sizeof("file://") - 1)
   ? filename.substr(sizeof("file://") - 1) : filename`. -/
def removeScheme (filename : Str) : Str :=
  if strncmp fileScheme.length filename fileScheme = 0
  then filename.drop fileScheme.length
  else filename

/-! ## The outside world

The file handles, the static content cache, the include-path resolver, the
path translators and the operating system are collaborators of the wrapper.
They are parameters of the model (`Env`); the wrapper's calls to them are
recorded, in order, in the trace of the `World`. -/

/-- One observable step of the wrapper: a call to a collaborator, with its
arguments and its result. -/
inductive Event where
  /-- A call `File::TranslatePath(arg)`, or `File::TranslatePathWithFileCache(arg)`
  when `useFileCache` is set. -/
  | translate (useFileCache : Bool) (arg : Str)
  /-- A call `MemFile::open(relative, mode)`. -/
  | memOpen (relative mode : Str) (ok : Bool)
  /-- A call `Eval::resolveVmInclude(fname, "", &s)`. -/
  | resolveInclude (fname : Str) (hit : Option Str)
  /-- A call `PlainFile::open(path, mode)`. -/
  | plainOpen (path mode : Str) (ok : Bool)
  /-- Construction of a `PlainDirectory` on `path` and its `isValid()`. -/
  | dirOpen (path : Str) (ok : Bool)
  /-- A call `raise_warning("%s", msg)`; `msg` is the C string printed. -/
  | warning (msg : Str)
  /-- A call `::access(path, mode)`. -/
  | access (path : Str) (mode : Int) (ret : Int)
  /-- A call `::stat(path, buf)`. -/
  | stat (path : Str) (ret : Int)
  /-- A call `::lstat(path, buf)`. -/
  | lstat (path : Str) (ret : Int)
  /-- A call `::unlink(path)`. -/
  | unlink (path : Str) (ret : Int)
  /-- A call `::rmdir(path)`. -/
  | rmdir (path : Str) (ret : Int)
  /-- A call `Util::directRename(old, new)` when `direct`, else `Util::rename`. -/
  | rename (direct : Bool) (oldname newname : Str) (ret : Int)
  /-- A call `::mkdir(path, mode)`. -/
  | mkdir (path : Str) (mode : Int) (ret : Int)
  deriving DecidableEq, Repr

/-- The handle a successful open returns. -/
inductive Handle where
  /-- A `MemFile` opened on a path relative to the cache root. -/
  | mem (relative mode : Str)
  /-- A `PlainFile` opened on a physical path. -/
  | plain (path mode : Str)
  /-- A `PlainDirectory` on a physical path. -/
  | dir (path : Str)
  deriving DecidableEq, Repr

/-- The state the wrapper runs in: the filesystem, `errno`, and the calls
made so far. -/
structure World (FS : Type) where
  fs : FS
  errno : Int
  trace : List Event

/-- The collaborators and constants the wrapper uses but does not define.
An operating-system primitive returns its status code, the value it leaves
in `errno` when that code is negative and, when it can change the
filesystem, the filesystem after the call. -/
structure Env (FS : Type) where
  /-- The constant `PATH_MAX` of `<limits.h>`. -/
  PATH_MAX : Nat
  /-- The constant `F_OK` of `<unistd.h>`. -/
  F_OK : Int
  /-- The constant `ENAMETOOLONG` of `<errno.h>`. -/
  ENAMETOOLONG : Int
  /-- The constant `EEXIST` of `<errno.h>`. -/
  EEXIST : Int
  /-- The constant `File::USE_INCLUDE_PATH`. -/
  USE_INCLUDE_PATH : Int
  /-- The constant `k_STREAM_MKDIR_RECURSIVE`. -/
  k_STREAM_MKDIR_RECURSIVE : Int
  /-- The value `FileStreamWrapper::access` takes for `useFileCache` when it
  is called with two arguments (line 137); the header declaring it is not
  part of the sources. -/
  accessUseFileCacheDefault : Bool
  /-- Whether `StaticContentCache::TheFileCache` is non-null. -/
  TheFileCache : Bool
  /-- The flag `RuntimeOption::UseDirectCopy`. -/
  UseDirectCopy : Bool
  TranslatePath : Str → Str
  TranslatePathWithFileCache : Str → Str
  GetRelativePath : Str → Str
  /-- The result of `MemFile::open(relative, mode)`. -/
  memFileOpen : Str → Str → Bool
  resolveVmInclude : FS → Str → Option Str
  /-- The result of `PlainFile::open(path, mode)` and the filesystem after. -/
  plainFileOpen : FS → Str → Str → Bool × FS
  /-- The value of `getLastError()` of a `PlainFile` after that open. -/
  plainFileLastError : FS → Str → Str → Str
  /-- The value of `isValid()` of a `PlainDirectory` constructed on a path. -/
  dirIsValid : FS → Str → Bool
  /-- The value of `getLastError()` of that `PlainDirectory`. -/
  dirLastError : FS → Str → Str
  sysAccess : FS → Str → Int → Int × Int
  sysStat : FS → Str → Int × Int
  sysLstat : FS → Str → Int × Int
  sysUnlink : FS → Str → Int × Int × FS
  sysRmdir : FS → Str → Int × Int × FS
  utilRename : FS → Str → Str → Int × Int × FS
  utilDirectRename : FS → Str → Str → Int × Int × FS
  sysMkdir : FS → Str → Int → Int × Int × FS

section Model

variable {FS : Type}

/-- Appends one event to the trace. -/
def World.log (w : World FS) (e : Event) : World FS :=
  { w with trace := w.trace ++ [e] }

/-- The world after an operating-system primitive returned `ret`, leaving
`err` in `errno` on failure and `fs` as the filesystem. -/
def World.sys (w : World FS) (ret err : Int) (fs : FS) (e : Event) : World FS :=
  { fs := fs, errno := if ret < 0 then err else w.errno, trace := w.trace ++ [e] }

/-- The call `::access(path, mode)`. -/
def sysAccessCall (env : Env FS) (path : Str) (mode : Int) (w : World FS) :
    Int × World FS :=
  let r := env.sysAccess w.fs path mode
  (r.1, w.sys r.1 r.2 w.fs (Event.access path mode r.1))

/-- The call `::mkdir(path, mode)`. -/
def sysMkdirCall (env : Env FS) (path : Str) (mode : Int) (w : World FS) :
    Int × World FS :=
  let r := env.sysMkdir w.fs path mode
  (r.1, w.sys r.1 r.2.1 r.2.2 (Event.mkdir path mode r.1))

/-- The call `File::TranslatePath(arg)`. -/
def callTranslatePath (env : Env FS) (arg : Str) (w : World FS) : Str × World FS :=
  (env.TranslatePath arg, w.log (Event.translate false arg))

/-- Source lines 51-54, `translate(filename, useFileCache)`; the parameter
defaults to `false`. -/
def translate (env : Env FS) (filename : Str) (useFileCache : Bool) (w : World FS) :
    Str × World FS :=
  let path := removeScheme filename
  (if useFileCache then env.TranslatePathWithFileCache path else env.TranslatePath path,
   w.log (Event.translate useFileCache path))

/-- Source lines 29-43, `FileStreamWrapper::openFromCache`. -/
def FileStreamWrapper.openFromCache (env : Env FS) (filename mode : Str) (w : World FS) :
    Option Handle × World FS :=
  if !env.TheFileCache then (none, w)
  else
    let t := callTranslatePath env filename w
    let relative := env.GetRelativePath (cstr t.1)
    let ret := env.memFileOpen relative mode
    let w2 := t.2.log (Event.memOpen relative mode ret)
    if ret then (some (Handle.mem relative mode), w2) else (none, w2)

/-- Source lines 64-70 of `FileStreamWrapper::open`: the include-path step,
returning the working file name. -/
def includePathStep (env : Env FS) (fname : Str) (options : Int) (w : World FS) :
    Str × World FS :=
  if Int.land options env.USE_INCLUDE_PATH ≠ 0 then
    let resolved_fname := env.resolveVmInclude w.fs fname
    let w1 := w.log (Event.resolveInclude fname resolved_fname)
    match resolved_fname with
    | some r => (r, w1)
    | none => (fname, w1)
  else (fname, w)

/-- Source lines 72-78 of `FileStreamWrapper::open`: the physical open.  The
warning prints `file->getLastError().c_str()`. -/
def plainOpenStep (env : Env FS) (fname mode : Str) (w : World FS) :
    Option Handle × World FS :=
  let t := callTranslatePath env fname w
  let r := env.plainFileOpen t.2.fs t.1 mode
  let w2 : World FS :=
    { fs := r.2, errno := t.2.errno, trace := t.2.trace ++ [Event.plainOpen t.1 mode r.1] }
  if !r.1 then
    (none, w2.log (Event.warning (cstr (env.plainFileLastError t.2.fs t.1 mode))))
  else (some (Handle.plain t.1 mode), w2)

/-- Source lines 56-79, `FileStreamWrapper::open`. -/
def FileStreamWrapper.open (env : Env FS) (filename mode : Str) (options : Int)
    (w : World FS) : Option Handle × World FS :=
  let fname := removeScheme filename
  let c := FileStreamWrapper.openFromCache env fname mode w
  match c.1 with
  | some file => (some file, c.2)
  | none =>
    let i := includePathStep env fname options c.2
    plainOpenStep env i.1 mode i.2

/-- Source lines 81-90, `FileStreamWrapper::opendir`. -/
def FileStreamWrapper.opendir (env : Env FS) (path : Str) (w : World FS) :
    Option Handle × World FS :=
  let t := callTranslatePath env path w
  let ok := env.dirIsValid t.2.fs t.1
  let w2 := t.2.log (Event.dirOpen t.1 ok)
  if !ok then (none, w2.log (Event.warning (cstr (env.dirLastError t.2.fs t.1))))
  else (some (Handle.dir t.1), w2)

/-- Source lines 92-94, `FileStreamWrapper::access`. -/
def FileStreamWrapper.access (env : Env FS) (path : Str) (mode : Int)
    (useFileCache : Bool) (w : World FS) : Int × World FS :=
  let t := translate env path useFileCache w
  sysAccessCall env (cstr t.1) mode t.2

/-- Source lines 96-98, `FileStreamWrapper::stat` (the buffer is not modelled). -/
def FileStreamWrapper.stat (env : Env FS) (path : Str) (useFileCache : Bool)
    (w : World FS) : Int × World FS :=
  let t := translate env path useFileCache w
  let r := env.sysStat t.2.fs (cstr t.1)
  (r.1, t.2.sys r.1 r.2 t.2.fs (Event.stat (cstr t.1) r.1))

/-- Source lines 100-102, `FileStreamWrapper::lstat` (the buffer is not modelled). -/
def FileStreamWrapper.lstat (env : Env FS) (path : Str) (useFileCache : Bool)
    (w : World FS) : Int × World FS :=
  let t := translate env path useFileCache w
  let r := env.sysLstat t.2.fs (cstr t.1)
  (r.1, t.2.sys r.1 r.2 t.2.fs (Event.lstat (cstr t.1) r.1))

/-- Source lines 104-106, `FileStreamWrapper::unlink`. -/
def FileStreamWrapper.unlink (env : Env FS) (path : Str) (w : World FS) :
    Int × World FS :=
  let t := translate env path false w
  let r := env.sysUnlink t.2.fs (cstr t.1)
  (r.1, t.2.sys r.1 r.2.1 r.2.2 (Event.unlink (cstr t.1) r.1))

/-- Source lines 108-110, `FileStreamWrapper::rmdir`; `options` is not used. -/
def FileStreamWrapper.rmdir (env : Env FS) (path : Str) (_options : Int) (w : World FS) :
    Int × World FS :=
  let t := translate env path false w
  let r := env.sysRmdir t.2.fs (cstr t.1)
  (r.1, t.2.sys r.1 r.2.1 r.2.2 (Event.rmdir (cstr t.1) r.1))

/-- Source lines 112-121, `FileStreamWrapper::rename`.  The two arguments of
the chosen primitive are evaluated old name first. -/
def FileStreamWrapper.rename (env : Env FS) (oldname newname : Str) (w : World FS) :
    Int × World FS :=
  let o := translate env oldname false w
  let n := translate env newname false o.2
  let r := if env.UseDirectCopy then env.utilDirectRename n.2.fs (cstr o.1) (cstr n.1)
           else env.utilRename n.2.fs (cstr o.1) (cstr n.1)
  (r.1, n.2.sys r.1 r.2.1 r.2.2 (Event.rename env.UseDirectCopy (cstr o.1) (cstr n.1) r.1))

/-- C `strncpy(dst, src, n)` into a buffer of `n` bytes: the bytes of the C
string `src`, at most `n` of them, padded with NUL bytes up to `n`. -/
def strncpy (src : Str) (n : Nat) : Str :=
  (cstr src).take n ++ List.replicate (n - ((cstr src).take n).length) NUL

/-- Source lines 146-156 of `mkdir_recursive`: the loop
`for (p = dir + 1; *p; p++)`.  The buffer `dir` is split at `p`: `pre` holds
the bytes before `p` and the second argument the bytes from `p` on; writing
a NUL byte at `p` makes the buffer `pre ++ NUL :: rest`, whose C string is what
`::access` and `::mkdir` receive.  The loop ends at a NUL byte (and at the
end of the buffer).  The result is `none` when the loop executes
`return -1`, and otherwise the buffer as the loop leaves it. -/
def mkdirWalk (env : Env FS) (mode : Int) : Str → Str → World FS → Option Str × World FS
  | pre, [], w => (some pre, w)
  | pre, c :: rest, w =>
    if c = NUL then (some (pre ++ c :: rest), w)
    else if c = '/' then
      let a := sysAccessCall env (cstr (pre ++ NUL :: rest)) env.F_OK w
      if a.1 < 0 then
        let m := sysMkdirCall env (cstr (pre ++ NUL :: rest)) mode a.2
        if m.1 < 0 then (none, m.2)
        else mkdirWalk env mode (pre ++ ['/']) rest m.2
      else mkdirWalk env mode (pre ++ ['/']) rest a.2
    else mkdirWalk env mode (pre ++ [c]) rest w

/-- Source lines 158-164 of `mkdir_recursive`: the check and creation of the
complete path, and the final `return 0`. -/
def mkdirFinal (env : Env FS) (mode : Int) (dir : Str) (w : World FS) : Int × World FS :=
  let a := sysAccessCall env (cstr dir) env.F_OK w
  if a.1 < 0 then
    let m := sysMkdirCall env (cstr dir) mode a.2
    if m.1 < 0 then (-1, m.2) else (0, m.2)
  else (0, a.2)

/-- Source lines 129-165, `FileStreamWrapper::mkdir_recursive`.  The call
`access(fullpath.data(), F_OK)` of line 137 is the member function: its
argument is converted from `const char*` to a `String`. -/
def FileStreamWrapper.mkdir_recursive (env : Env FS) (path : Str) (mode : Int)
    (w : World FS) : Int × World FS :=
  let fullpath := translate env path false w
  if fullpath.1.length > env.PATH_MAX then
    (-1, { fullpath.2 with errno := env.ENAMETOOLONG })
  else
    let a := FileStreamWrapper.access env (cstr fullpath.1) env.F_OK
      env.accessUseFileCacheDefault fullpath.2
    if a.1 ≥ 0 then (-1, { a.2 with errno := env.EEXIST })
    else
      let dir := strncpy fullpath.1 (env.PATH_MAX + 1)
      match mkdirWalk env mode (dir.take 1) (dir.drop 1) a.2 with
      | (none, w3) => (-1, w3)
      | (some buf, w3) => mkdirFinal env mode buf w3

/-- Source lines 123-127, `FileStreamWrapper::mkdir`. -/
def FileStreamWrapper.mkdir (env : Env FS) (path : Str) (mode options : Int)
    (w : World FS) : Int × World FS :=
  if Int.land options env.k_STREAM_MKDIR_RECURSIVE ≠ 0 then
    FileStreamWrapper.mkdir_recursive env path mode w
  else
    let t := translate env path false w
    sysMkdirCall env (cstr t.1) mode t.2

end Model

/-! ## Notions the properties are stated with -/

section Notions

variable {FS : Type}

/-- A string begins with the literal prefix `file://`. -/
def beginsWithScheme (s : Str) : Prop := fileScheme <+: s

instance (s : Str) : Decidable (beginsWithScheme s) :=
  inferInstanceAs (Decidable (fileScheme <+: s))

/-- A path exists in a filesystem: `::access(s.data(), F_OK)` does not fail
on it. -/
def pathExists (env : Env FS) (fs : FS) (s : Str) : Prop :=
  0 ≤ (env.sysAccess fs (cstr s) env.F_OK).1

instance (env : Env FS) (fs : FS) (s : Str) : Decidable (pathExists env fs s) :=
  inferInstanceAs (Decidable (0 ≤ (env.sysAccess fs (cstr s) env.F_OK).1))

/-- The events recorded between the world `w` and the later world `w2`. -/
def eventsSince (w w2 : World FS) : List Event := w2.trace.drop w.trace.length

/-- The strings handed to a physical-path translator, in order. -/
def translatorArgs : List Event → List Str
  | [] => []
  | Event.translate _ a :: es => a :: translatorArgs es
  | _ :: es => translatorArgs es

/-- The messages of the warnings raised, in order. -/
def warnings : List Event → List Str
  | [] => []
  | Event.warning m :: es => m :: warnings es
  | _ :: es => warnings es

/-- An event is a call of `::mkdir`. -/
def Event.isMkdir : Event → Bool
  | Event.mkdir _ _ _ => true
  | _ => false

/-- The prefixes of `dir` obtained by truncating it at a `/` separator that
is not its first byte, by increasing length. -/
def separatorPrefixes (dir : Str) : List Str :=
  ((List.range dir.length).filter (fun i => decide (0 < i ∧ dir[i]? = some '/'))).map
    (fun i => dir.take i)

/-- The strings `pre ++ cs.take j` for the positions `j` of a `/` in `cs`, by
increasing `j`: the truncations met when walking `cs` with `pre` already
behind. -/
def prefixesAt (pre : Str) : Str → List Str
  | [] => []
  | c :: cs =>
    if c = '/' then pre :: prefixesAt (pre ++ [c]) cs else prefixesAt (pre ++ [c]) cs

/-- The prefixes of `dir` obtained by truncating it at any `/` separator,
the first byte included, by increasing length. -/
def allSeparatorPrefixes (dir : Str) : List Str :=
  ((List.range dir.length).filter (fun i => decide (dir[i]? = some '/'))).map
    (fun i => dir.take i)

/-- The walk as the specification words it (section 4.5, steps 3 and 4): for
each target in turn, if it does not already exist, attempt to create it; a
creation failure aborts the whole operation.  The result tells whether every
step succeeded. -/
def createMissing (env : Env FS) (mode : Int) : List Str → World FS → Bool × World FS
  | [], w => (true, w)
  | t :: ts, w =>
    let a := sysAccessCall env t env.F_OK w
    if a.1 < 0 then
      let m := sysMkdirCall env t mode a.2
      if m.1 < 0 then (false, m.2) else createMissing env mode ts m.2
    else createMissing env mode ts a.2

/-- The translated full path of `mkdir_recursive` (line 130). -/
def translatedPath (env : Env FS) (path : Str) : Str :=
  env.TranslatePath (removeScheme path)

/-- The C string that the existence check of line 137 hands to `::access`:
the member `access` translates the C string of the translated full path
once more. -/
def checkedPath (env : Env FS) (path : Str) : Str :=
  cstr (if env.accessUseFileCacheDefault
    then env.TranslatePathWithFileCache (removeScheme (cstr (translatedPath env path)))
    else env.TranslatePath (removeScheme (cstr (translatedPath env path))))

/-- The world after the length check and the existence check of
`mkdir_recursive` (lines 130-137). -/
def afterChecks (env : Env FS) (path : Str) (w : World FS) : World FS :=
  (FileStreamWrapper.access env (cstr (translatedPath env path)) env.F_OK
    env.accessUseFileCacheDefault (translate env path false w).2).2

/-- The events of the two checks of `mkdir_recursive` (lines 130-137): the
translation of the path, and the member `access` with its own translation. -/
def checkEvents (env : Env FS) (path : Str) (w : World FS) : List Event :=
  [Event.translate false (removeScheme path),
   Event.translate env.accessUseFileCacheDefault
     (removeScheme (cstr (translatedPath env path))),
   Event.access (checkedPath env path) env.F_OK
     (env.sysAccess w.fs (checkedPath env path) env.F_OK).1]

/-- The operations of the wrapper, with their arguments. -/
inductive Op where
  | open (filename mode : Str) (options : Int)
  | opendir (path : Str)
  | access (path : Str) (mode : Int) (useFileCache : Bool)
  | stat (path : Str) (useFileCache : Bool)
  | lstat (path : Str) (useFileCache : Bool)
  | unlink (path : Str)
  | rmdir (path : Str) (options : Int)
  | rename (oldname newname : Str)
  | mkdir (path : Str) (mode options : Int)
  | mkdir_recursive (path : Str) (mode : Int)
  deriving DecidableEq, Repr

/-- The world after an operation. -/
def Op.run (env : Env FS) (w : World FS) : Op → World FS
  | Op.open f m o => (FileStreamWrapper.open env f m o w).2
  | Op.opendir p => (FileStreamWrapper.opendir env p w).2
  | Op.access p m u => (FileStreamWrapper.access env p m u w).2
  | Op.stat p u => (FileStreamWrapper.stat env p u w).2
  | Op.lstat p u => (FileStreamWrapper.lstat env p u w).2
  | Op.unlink p => (FileStreamWrapper.unlink env p w).2
  | Op.rmdir p o => (FileStreamWrapper.rmdir env p o w).2
  | Op.rename o n => (FileStreamWrapper.rename env o n w).2
  | Op.mkdir p m o => (FileStreamWrapper.mkdir env p m o w).2
  | Op.mkdir_recursive p m => (FileStreamWrapper.mkdir_recursive env p m w).2

/-- The logical paths an operation is given. -/
def Op.paths : Op → List Str
  | Op.open f _ _ => [f]
  | Op.opendir p => [p]
  | Op.access p _ _ => [p]
  | Op.stat p _ => [p]
  | Op.lstat p _ => [p]
  | Op.unlink p => [p]
  | Op.rmdir p _ => [p]
  | Op.rename o n => [o, n]
  | Op.mkdir p _ _ => [p]
  | Op.mkdir_recursive p _ => [p]

/-- The operation is `opendir`. -/
def Op.isOpendir : Op → Bool
  | Op.opendir _ => true
  | _ => false

end Notions

/-! ## A small concrete world

Used to evaluate the wrapper on concrete inputs. -/

/-- A filesystem given by the paths that exist and the paths whose creation
is refused. -/
structure SimpleFS where
  dirs : List Str
  deny : List Str
  deriving DecidableEq, Repr

/-- The primitive `::access` on a `SimpleFS`: 0 when the path exists, else -1
with `ENOENT` (2). -/
def SimpleFS.access (fs : SimpleFS) (path : Str) (_mode : Int) : Int × Int :=
  if path ∈ fs.dirs then (0, 0) else (-1, 2)

/-- The primitive `::mkdir` on a `SimpleFS`: -1 with `EACCES` (13) on a
refused path, -1 with `EEXIST` (17) on an existing one, and otherwise 0,
the path existing afterwards. -/
def SimpleFS.mkdir (fs : SimpleFS) (path : Str) (_mode : Int) : Int × Int × SimpleFS :=
  if path ∈ fs.deny then (-1, 13, fs)
  else if path ∈ fs.dirs then (-1, 17, fs)
  else (0, 0, { fs with dirs := path :: fs.dirs })

/-- The primitives that remove a path, on a `SimpleFS`. -/
def SimpleFS.remove (fs : SimpleFS) (path : Str) : Int × Int × SimpleFS :=
  if path ∈ fs.dirs then (0, 0, { fs with dirs := fs.dirs.filter (fun d => d != path) })
  else (-1, 2, fs)

/-- The primitives that rename a path, on a `SimpleFS`. -/
def SimpleFS.rename (fs : SimpleFS) (o n : Str) : Int × Int × SimpleFS :=
  if o ∈ fs.dirs then
    (0, 0, { fs with dirs := n :: fs.dirs.filter (fun d => d != o) })
  else (-1, 2, fs)

/-- An environment over `SimpleFS` with the given maximal path length, path
translator, cache presence and cached paths; its include-path resolver
finds nothing and its files open exactly when they exist. -/
def simpleEnv (pathMax : Nat) (tr : Str → Str) (cache : Bool) (cached : List Str) :
    Env SimpleFS where
  PATH_MAX := pathMax
  F_OK := 0
  ENAMETOOLONG := 36
  EEXIST := 17
  USE_INCLUDE_PATH := 1
  k_STREAM_MKDIR_RECURSIVE := 1
  accessUseFileCacheDefault := false
  TheFileCache := cache
  UseDirectCopy := false
  TranslatePath := tr
  TranslatePathWithFileCache := tr
  GetRelativePath := fun p => p.drop 1
  memFileOpen := fun p _ => decide (p ∈ cached)
  resolveVmInclude := fun _ _ => none
  plainFileOpen := fun fs p _ => (decide (p ∈ fs.dirs), fs)
  plainFileLastError := fun _ _ _ => ['E']
  dirIsValid := fun fs p => decide (p ∈ fs.dirs)
  dirLastError := fun _ _ => ['E']
  sysAccess := SimpleFS.access
  sysStat := fun fs p => SimpleFS.access fs p 0
  sysLstat := fun fs p => SimpleFS.access fs p 0
  sysUnlink := SimpleFS.remove
  sysRmdir := SimpleFS.remove
  utilRename := SimpleFS.rename
  utilDirectRename := SimpleFS.rename
  sysMkdir := SimpleFS.mkdir

/-- The path `/`. -/
def pathRoot : Str := ['/']

/-- The path `/a`. -/
def pathA : Str := ['/', 'a']

/-- The path `/a/b`. -/
def pathAB : Str := ['/', 'a', '/', 'b']

/-- The path `/a/b/c`. -/
def pathABC : Str := ['/', 'a', '/', 'b', '/', 'c']

/-- A path of 4097 bytes whose C string is `/a`: `/a`, a NUL byte, and 4094
times `x`. -/
def pathLongA : Str := ['/', 'a', NUL] ++ List.replicate 4094 'x'

/-- An include-path resolver that looks for a name under the directory `/a`. -/
def resolveUnderA (fs : SimpleFS) (f : Str) : Option Str :=
  if (pathA ++ '/' :: f) ∈ fs.dirs then some (pathA ++ '/' :: f) else none

/-- An environment with a cache overlay holding the given relative paths and
with the include-path resolver `resolveUnderA`. -/
def includeEnv (cached : List Str) : Env SimpleFS :=
  { simpleEnv 4096 id true cached with resolveVmInclude := resolveUnderA }

/-- A translator that places every path under the directory `/r`. -/
def underR (p : Str) : Str := ['/', 'r'] ++ p

/-- The world with the given existing and refused paths, `errno` 0 and an
empty trace. -/
def simpleWorld (dirs deny : List Str) : World SimpleFS :=
  { fs := { dirs := dirs, deny := deny }, errno := 0, trace := [] }

/-! ## Strings and scheme stripping -/

theorem cstr_no_nul (s : Str) : ∀ c ∈ cstr s, c ≠ NUL := by
  intro c hc
  have h := List.mem_takeWhile_imp hc
  simpa using h

theorem cstr_append_nul (pre rest : Str) (h : ∀ c ∈ pre, c ≠ NUL) :
    cstr (pre ++ NUL :: rest) = pre := by
  induction pre with
  | nil => simp [cstr, List.takeWhile]
  | cons a pre ih =>
    have ha : a ≠ NUL := h a (by simp)
    have ih2 := ih (fun c hc => h c (by simp [hc]))
    simp only [cstr] at ih2 ⊢
    rw [List.cons_append, List.takeWhile_cons, if_pos (by simpa using ha), ih2]

theorem cstr_isPrefixOf_self (s : Str) : cstr s <+: s :=
  List.takeWhile_prefix _

theorem cstr_length_le (s : Str) : (cstr s).length ≤ s.length :=
  (cstr_isPrefixOf_self s).length_le

theorem fileScheme_no_nul : ∀ c ∈ fileScheme, c ≠ NUL := by decide

/-- On a literal without NUL bytes, `strncmp` over the literal's length tells
whether the literal is a prefix. -/
theorem strncmp_eq_zero_iff (p : Str) (hp : ∀ c ∈ p, c ≠ NUL) (s : Str) :
    strncmp p.length s p = 0 ↔ p <+: s := by
  induction p generalizing s with
  | nil => simp [strncmp]
  | cons c p ih =>
    have hc : c ≠ NUL := hp c (by simp)
    have ih2 := ih (fun x hx => hp x (by simp [hx]))
    cases s with
    | nil =>
      have hne : NUL ≠ c := fun h => hc h.symm
      simp only [List.length_cons, strncmp, List.headD_nil, List.headD_cons]
      rw [if_pos hne]
      constructor
      · intro h; split at h <;> simp at h
      · intro h; simp at h
    | cons a s =>
      simp only [List.length_cons, strncmp, List.headD_cons, List.tail_cons]
      by_cases hac : a = c
      · subst hac
        simp only [ne_eq, not_true_eq_false, if_false, if_neg hc]
        rw [ih2 s]
        simp [List.cons_prefix_cons]
      · rw [if_pos hac]
        constructor
        · intro h; split at h <;> simp at h
        · intro h
          rw [List.cons_prefix_cons] at h
          exact absurd h.1.symm hac

theorem removeScheme_eq (s : Str) :
    removeScheme s = if beginsWithScheme s then s.drop fileScheme.length else s := by
  unfold removeScheme beginsWithScheme
  by_cases h : fileScheme <+: s
  · rw [if_pos h, if_pos ((strncmp_eq_zero_iff fileScheme fileScheme_no_nul s).2 h)]
  · rw [if_neg h, if_neg (fun h0 => h ((strncmp_eq_zero_iff fileScheme fileScheme_no_nul s).1 h0))]

theorem removeScheme_of_not_begins (s : Str) (h : ¬ beginsWithScheme s) :
    removeScheme s = s := by
  rw [removeScheme_eq, if_neg h]

theorem removeScheme_append (s : Str) : removeScheme (fileScheme ++ s) = s := by
  rw [removeScheme_eq,
    if_pos (show beginsWithScheme (fileScheme ++ s) from List.prefix_append _ _)]
  simp

/-- C6. `removeScheme` removes exactly the seven bytes of a leading
`file://`, once, and returns a path that does not begin with `file://`
unchanged. -/
theorem removeScheme_strips_prefix_once :
    (∀ s : Str, removeScheme (fileScheme ++ s) = s) ∧
    (∀ p : Str, ¬ beginsWithScheme p → removeScheme p = p) :=
  ⟨removeScheme_append, removeScheme_of_not_begins⟩

/-- C6 at concrete inputs: `file:///tmp` loses its prefix and `file:/x`, which
does not begin with `file://`, is returned unchanged. -/
theorem removeScheme_strips_prefix_once_witness :
    removeScheme (fileScheme ++ ['/', 't', 'm', 'p']) = ['/', 't', 'm', 'p'] ∧
    ¬ beginsWithScheme ['f', 'i', 'l', 'e', ':', '/', 'x'] ∧
    removeScheme ['f', 'i', 'l', 'e', ':', '/', 'x'] = ['f', 'i', 'l', 'e', ':', '/', 'x'] :=
  ⟨removeScheme_strips_prefix_once.1 _, by decide,
   removeScheme_strips_prefix_once.2 _ (by decide)⟩

/-- C5 as stated fails: `file://file://x` begins with `file://`, its
`removeScheme` is `file://x`, and applying `removeScheme` again gives `x`. -/
theorem removeScheme_not_idempotent :
    beginsWithScheme (fileScheme ++ (fileScheme ++ ['x'])) ∧
    removeScheme (fileScheme ++ (fileScheme ++ ['x'])) = fileScheme ++ ['x'] ∧
    removeScheme (removeScheme (fileScheme ++ (fileScheme ++ ['x']))) = ['x'] ∧
    removeScheme (removeScheme (fileScheme ++ (fileScheme ++ ['x']))) ≠
      removeScheme (fileScheme ++ (fileScheme ++ ['x'])) := by
  refine ⟨List.prefix_append _ _, removeScheme_append _, ?_, ?_⟩
  · rw [removeScheme_append, removeScheme_append]
  · rw [removeScheme_append, removeScheme_append]; decide

/-- C5, amended. For a path that begins with `file://` and whose remainder
after that prefix does not begin with `file://` again, `removeScheme` is
idempotent on the result. -/
theorem removeScheme_idempotent_single_prefix (P : Str) (h : beginsWithScheme P)
    (h1 : ¬ beginsWithScheme (P.drop fileScheme.length)) :
    removeScheme (removeScheme P) = removeScheme P := by
  have e : removeScheme P = P.drop fileScheme.length := by
    rw [removeScheme_eq, if_pos h]
  rw [e, removeScheme_of_not_begins _ h1]

/-- C5, amended, at `file:///tmp`. -/
theorem removeScheme_idempotent_single_prefix_witness :
    removeScheme (removeScheme (fileScheme ++ ['/', 't', 'm', 'p'])) =
      removeScheme (fileScheme ++ ['/', 't', 'm', 'p']) :=
  removeScheme_idempotent_single_prefix (fileScheme ++ ['/', 't', 'm', 'p'])
    (by decide) (by decide)

/-! ## The layered open -/

section OpenProofs

variable {FS : Type}

theorem eventsSince_of_append (w w2 : World FS) (tr : List Event)
    (h : w2.trace = w.trace ++ tr) : eventsSince w w2 = tr := by
  simp [eventsSince, h]

theorem warnings_append (xs ys : List Event) :
    warnings (xs ++ ys) = warnings xs ++ warnings ys := by
  induction xs with
  | nil => rfl
  | cons e xs ih => cases e <;> simp [warnings, ih]

theorem openFromCache_fst (env : Env FS) (filename mode : Str) (w : World FS) :
    (FileStreamWrapper.openFromCache env filename mode w).1 =
      if env.TheFileCache = true ∧
          env.memFileOpen (env.GetRelativePath (cstr (env.TranslatePath filename))) mode = true
      then some (Handle.mem (env.GetRelativePath (cstr (env.TranslatePath filename))) mode)
      else none := by
  unfold FileStreamWrapper.openFromCache callTranslatePath
  cases hc : env.TheFileCache <;>
    cases hm : env.memFileOpen (env.GetRelativePath (cstr (env.TranslatePath filename))) mode <;>
    simp [hm]

theorem openFromCache_snd (env : Env FS) (filename mode : Str) (w : World FS) :
    (FileStreamWrapper.openFromCache env filename mode w).2 =
      { w with trace := w.trace ++
          if env.TheFileCache = true then
            [Event.translate false filename,
             Event.memOpen (env.GetRelativePath (cstr (env.TranslatePath filename))) mode
               (env.memFileOpen (env.GetRelativePath (cstr (env.TranslatePath filename))) mode)]
          else [] } := by
  unfold FileStreamWrapper.openFromCache callTranslatePath World.log
  cases hc : env.TheFileCache <;>
    cases hm : env.memFileOpen (env.GetRelativePath (cstr (env.TranslatePath filename))) mode <;>
    simp [hm]

theorem includePathStep_snd (env : Env FS) (fname : Str) (options : Int) (w : World FS) :
    (includePathStep env fname options w).2 =
      { w with trace := w.trace ++
          if Int.land options env.USE_INCLUDE_PATH ≠ 0 then
            [Event.resolveInclude fname (env.resolveVmInclude w.fs fname)]
          else [] } := by
  unfold includePathStep World.log
  by_cases hb : Int.land options env.USE_INCLUDE_PATH ≠ 0
  · rw [if_pos hb, if_pos hb]
    cases hr : env.resolveVmInclude w.fs fname <;> simp
  · rw [if_neg hb, if_neg hb]
    simp

theorem plainOpenStep_fst (env : Env FS) (fname mode : Str) (w : World FS) :
    (plainOpenStep env fname mode w).1 =
      if (env.plainFileOpen w.fs (env.TranslatePath fname) mode).1 = true
      then some (Handle.plain (env.TranslatePath fname) mode) else none := by
  unfold plainOpenStep callTranslatePath World.log
  cases hp : (env.plainFileOpen w.fs (env.TranslatePath fname) mode).1 <;> simp [hp]

theorem plainOpenStep_trace (env : Env FS) (fname mode : Str) (w : World FS) :
    (plainOpenStep env fname mode w).2.trace =
      w.trace ++
        ([Event.translate false fname,
          Event.plainOpen (env.TranslatePath fname) mode
            (env.plainFileOpen w.fs (env.TranslatePath fname) mode).1] ++
         if (env.plainFileOpen w.fs (env.TranslatePath fname) mode).1 = true then []
         else [Event.warning
           (cstr (env.plainFileLastError w.fs (env.TranslatePath fname) mode))]) := by
  unfold plainOpenStep callTranslatePath World.log
  cases hp : (env.plainFileOpen w.fs (env.TranslatePath fname) mode).1 <;> simp [hp]

theorem open_eq_of_probe_none (env : Env FS) (filename mode : Str) (options : Int)
    (w : World FS)
    (h : (FileStreamWrapper.openFromCache env (removeScheme filename) mode w).1 = none) :
    FileStreamWrapper.open env filename mode options w =
      plainOpenStep env
        (includePathStep env (removeScheme filename) options
          (FileStreamWrapper.openFromCache env (removeScheme filename) mode w).2).1 mode
        (includePathStep env (removeScheme filename) options
          (FileStreamWrapper.openFromCache env (removeScheme filename) mode w).2).2 := by
  unfold FileStreamWrapper.open
  simp only [h]

theorem open_eq_of_probe_some (env : Env FS) (filename mode : Str) (options : Int)
    (w : World FS) (file : Handle)
    (h : (FileStreamWrapper.openFromCache env (removeScheme filename) mode w).1 = some file) :
    FileStreamWrapper.open env filename mode options w =
      (some file, (FileStreamWrapper.openFromCache env (removeScheme filename) mode w).2) := by
  unfold FileStreamWrapper.open
  simp only [h]

theorem openFromCache_events (env : Env FS) (filename mode : Str) (w : World FS) :
    ∃ tr, (FileStreamWrapper.openFromCache env filename mode w).2.trace = w.trace ++ tr ∧
      warnings tr = [] ∧
      (FileStreamWrapper.openFromCache env filename mode w).2.fs = w.fs := by
  refine ⟨_, by rw [openFromCache_snd], ?_, by rw [openFromCache_snd]⟩
  split <;> rfl

theorem includePathStep_events (env : Env FS) (fname : Str) (options : Int) (w : World FS) :
    ∃ tr, (includePathStep env fname options w).2.trace = w.trace ++ tr ∧
      warnings tr = [] ∧ (includePathStep env fname options w).2.fs = w.fs ∧
      (Int.land options env.USE_INCLUDE_PATH ≠ 0 →
        Event.resolveInclude fname (env.resolveVmInclude w.fs fname) ∈ tr) := by
  refine ⟨_, by rw [includePathStep_snd], ?_, by rw [includePathStep_snd], ?_⟩
  · split <;> rfl
  · intro hb
    rw [if_pos hb]
    exact List.mem_singleton.2 rfl

/-- C8. With a cache overlay configured, when the cached-file open of the
cache-relative path succeeds in the requested mode, `open` returns that
cached handle and its only steps are the translation for the probe and the
cached open: no include-path lookup, no physical open, no warning, and the
filesystem is untouched.  Without a cache overlay the probe returns nothing
and changes nothing, and `open` is the include-path step followed by the
physical open, which is always attempted. -/
theorem open_cache_probe_precedence (env : Env FS) (filename mode : Str) (options : Int)
    (w : World FS) :
    (env.TheFileCache = true →
      env.memFileOpen
        (env.GetRelativePath (cstr (env.TranslatePath (removeScheme filename)))) mode = true →
      (FileStreamWrapper.open env filename mode options w).1 =
        some (Handle.mem
          (env.GetRelativePath (cstr (env.TranslatePath (removeScheme filename)))) mode) ∧
      eventsSince w (FileStreamWrapper.open env filename mode options w).2 =
        [Event.translate false (removeScheme filename),
         Event.memOpen
           (env.GetRelativePath (cstr (env.TranslatePath (removeScheme filename)))) mode true] ∧
      (FileStreamWrapper.open env filename mode options w).2.fs = w.fs) ∧
    (env.TheFileCache = false →
      FileStreamWrapper.openFromCache env (removeScheme filename) mode w = (none, w) ∧
      FileStreamWrapper.open env filename mode options w =
        plainOpenStep env (includePathStep env (removeScheme filename) options w).1 mode
          (includePathStep env (removeScheme filename) options w).2 ∧
      (Int.land options env.USE_INCLUDE_PATH ≠ 0 →
        ∃ hit, Event.resolveInclude (removeScheme filename) hit ∈
          eventsSince w (FileStreamWrapper.open env filename mode options w).2) ∧
      ∃ path ok, Event.plainOpen path mode ok ∈
        eventsSince w (FileStreamWrapper.open env filename mode options w).2) := by
  constructor
  · intro hc hm
    have h1 := openFromCache_fst env (removeScheme filename) mode w
    rw [if_pos ⟨hc, hm⟩] at h1
    rw [open_eq_of_probe_some env filename mode options w _ h1]
    refine ⟨rfl, ?_, ?_⟩
    · apply eventsSince_of_append
      rw [openFromCache_snd, if_pos hc, hm]
    · rw [openFromCache_snd]
  · intro hc
    have h1 : FileStreamWrapper.openFromCache env (removeScheme filename) mode w = (none, w) := by
      unfold FileStreamWrapper.openFromCache
      simp [hc]
    have h2 := open_eq_of_probe_none env filename mode options w (by rw [h1])
    rw [h1] at h2
    obtain ⟨tri, hi1, _, _, hi4⟩ := includePathStep_events env (removeScheme filename) options w
    have ht := plainOpenStep_trace env
      (includePathStep env (removeScheme filename) options w).1 mode
      (includePathStep env (removeScheme filename) options w).2
    rw [hi1, List.append_assoc] at ht
    rw [← h2] at ht
    rw [eventsSince_of_append w _ _ ht]
    refine ⟨h1, h2, ?_, ?_⟩
    · intro hb
      exact ⟨_, List.mem_append_left _ (hi4 hb)⟩
    · refine ⟨env.TranslatePath (includePathStep env (removeScheme filename) options w).1,
        (env.plainFileOpen (includePathStep env (removeScheme filename) options w).2.fs
          (env.TranslatePath (includePathStep env (removeScheme filename) options w).1)
          mode).1, ?_⟩
      simp

/-- The result and the warnings of `open` in terms of its two steps. -/
theorem open_result_of_steps (env : Env FS) (filename mode : Str)
    (options : Int) (w : World FS) :
    ((FileStreamWrapper.open env filename mode options w).1 = none ↔
      (FileStreamWrapper.openFromCache env (removeScheme filename) mode w).1 = none ∧
      (env.plainFileOpen w.fs
        (env.TranslatePath
          (includePathStep env (removeScheme filename) options
            (FileStreamWrapper.openFromCache env (removeScheme filename) mode w).2).1)
        mode).1 = false) ∧
    warnings (eventsSince w (FileStreamWrapper.open env filename mode options w).2) =
      if (FileStreamWrapper.open env filename mode options w).1 = none then
        [cstr (env.plainFileLastError w.fs
          (env.TranslatePath
            (includePathStep env (removeScheme filename) options
              (FileStreamWrapper.openFromCache env (removeScheme filename) mode w).2).1)
          mode)]
      else [] := by
  obtain ⟨trc, hc1, hc2, hc3⟩ := openFromCache_events env (removeScheme filename) mode w
  cases hp : (FileStreamWrapper.openFromCache env (removeScheme filename) mode w).1 with
  | some file =>
    rw [open_eq_of_probe_some env filename mode options w file hp]
    refine ⟨by simp, ?_⟩
    rw [eventsSince_of_append w _ _ hc1, hc2]
    simp
  | none =>
    rw [open_eq_of_probe_none env filename mode options w hp]
    obtain ⟨tri, hi1, hi2, hi3, _⟩ := includePathStep_events env (removeScheme filename) options
      (FileStreamWrapper.openFromCache env (removeScheme filename) mode w).2
    have ht := plainOpenStep_trace env
      (includePathStep env (removeScheme filename) options
        (FileStreamWrapper.openFromCache env (removeScheme filename) mode w).2).1 mode
      (includePathStep env (removeScheme filename) options
        (FileStreamWrapper.openFromCache env (removeScheme filename) mode w).2).2
    rw [hi1, hc1, List.append_assoc, List.append_assoc, hi3, hc3] at ht
    rw [eventsSince_of_append w _ _ ht, plainOpenStep_fst, hi3, hc3]
    simp only [warnings_append, hc2, hi2, List.nil_append]
    cases hop : (env.plainFileOpen w.fs
        (env.TranslatePath
          (includePathStep env (removeScheme filename) options
            (FileStreamWrapper.openFromCache env (removeScheme filename) mode w).2).1)
        mode).1 <;> simp [warnings]

theorem includePathStep_fst (env : Env FS) (fname : Str) (options : Int) (w : World FS) :
    (includePathStep env fname options w).1 =
      if Int.land options env.USE_INCLUDE_PATH ≠ 0
      then (env.resolveVmInclude w.fs fname).getD fname else fname := by
  unfold includePathStep
  by_cases hb : Int.land options env.USE_INCLUDE_PATH ≠ 0
  · rw [if_pos hb, if_pos hb]
    cases hr : env.resolveVmInclude w.fs fname <;> simp
  · rw [if_neg hb, if_neg hb]

/-- C9. `open` returns no handle exactly when the cache probe misses (no
cache overlay is configured, or the cached open of the cache-relative path
fails) and the physical open fails on the translation of the working name:
the include-path hit when the option is set and the resolver finds one, and
the scheme-stripped file name otherwise.  In that case exactly one warning
is raised, and it carries the last error of the physical file; in every
other case no warning is raised: on a cache hit `open` returns the cached
handle, and on a miss followed by a successful physical open it returns the
physical handle on that translated working name. -/
theorem open_null_iff_physical_open_fails (env : Env FS) (filename mode : Str)
    (options : Int) (w : World FS) :
    ((FileStreamWrapper.open env filename mode options w).1 = none ↔
      ¬ (env.TheFileCache = true ∧
          env.memFileOpen (env.GetRelativePath (cstr (env.TranslatePath (removeScheme filename)))) mode = true) ∧
      (env.plainFileOpen w.fs
        (env.TranslatePath
          (if Int.land options env.USE_INCLUDE_PATH ≠ 0
            then (env.resolveVmInclude w.fs (removeScheme filename)).getD (removeScheme filename)
            else removeScheme filename))
        mode).1 = false) ∧
    warnings (eventsSince w (FileStreamWrapper.open env filename mode options w).2) =
      (if (FileStreamWrapper.open env filename mode options w).1 = none then
        [cstr (env.plainFileLastError w.fs
          (env.TranslatePath
            (if Int.land options env.USE_INCLUDE_PATH ≠ 0
            then (env.resolveVmInclude w.fs (removeScheme filename)).getD (removeScheme filename)
            else removeScheme filename))
          mode)]
      else []) ∧
    (env.TheFileCache = true ∧
        env.memFileOpen (env.GetRelativePath (cstr (env.TranslatePath (removeScheme filename)))) mode = true →
      (FileStreamWrapper.open env filename mode options w).1 =
        some (Handle.mem (env.GetRelativePath (cstr (env.TranslatePath (removeScheme filename)))) mode)) ∧
    (¬ (env.TheFileCache = true ∧
          env.memFileOpen (env.GetRelativePath (cstr (env.TranslatePath (removeScheme filename)))) mode = true) →
      (env.plainFileOpen w.fs
        (env.TranslatePath
          (if Int.land options env.USE_INCLUDE_PATH ≠ 0
            then (env.resolveVmInclude w.fs (removeScheme filename)).getD (removeScheme filename)
            else removeScheme filename))
        mode).1 = true →
      (FileStreamWrapper.open env filename mode options w).1 =
        some (Handle.plain
          (env.TranslatePath
            (if Int.land options env.USE_INCLUDE_PATH ≠ 0
            then (env.resolveVmInclude w.fs (removeScheme filename)).getD (removeScheme filename)
            else removeScheme filename))
          mode)) := by
  have hfs : (FileStreamWrapper.openFromCache env (removeScheme filename) mode w).2.fs = w.fs := by
    rw [openFromCache_snd]
  have hwn : (includePathStep env (removeScheme filename) options
        (FileStreamWrapper.openFromCache env (removeScheme filename) mode w).2).1 =
      (if Int.land options env.USE_INCLUDE_PATH ≠ 0
            then (env.resolveVmInclude w.fs (removeScheme filename)).getD (removeScheme filename)
            else removeScheme filename) := by
    rw [includePathStep_fst, hfs]
  have hprobe := openFromCache_fst env (removeScheme filename) mode w
  have hsteps := open_result_of_steps env filename mode options w
  rw [hwn] at hsteps
  have hinc : (includePathStep env (removeScheme filename) options
      (FileStreamWrapper.openFromCache env (removeScheme filename) mode w).2).2.fs = w.fs := by
    rw [includePathStep_snd, openFromCache_snd]
  by_cases hit : env.TheFileCache = true ∧
      env.memFileOpen (env.GetRelativePath (cstr (env.TranslatePath (removeScheme filename)))) mode = true
  · rw [if_pos hit] at hprobe
    have hres := open_eq_of_probe_some env filename mode options w _ hprobe
    refine ⟨?_, hsteps.2, fun _ => by rw [hres], fun hn => absurd hit hn⟩
    rw [hres]
    simp [hit]
  · rw [if_neg hit] at hprobe
    refine ⟨?_, hsteps.2, fun h => absurd h hit, ?_⟩
    · rw [hsteps.1]
      simp [hprobe, hit]
    · intro _ hok
      rw [open_eq_of_probe_none env filename mode options w hprobe, plainOpenStep_fst,
        hwn, hinc, if_pos hok]

end OpenProofs

/-! ## Recursive directory creation -/

section MkdirProofs

variable {FS : Type}

theorem prefixesAt_eq_range (cs pre : Str) :
    prefixesAt pre cs =
      ((List.range cs.length).filter (fun j => decide (cs[j]? = some '/'))).map
        (fun j => pre ++ cs.take j) := by
  induction cs generalizing pre with
  | nil => simp [prefixesAt]
  | cons c cs ih =>
    rw [List.length_cons, List.range_succ_eq_map, List.filter_cons, List.filter_map,
      prefixesAt, ih (pre ++ [c])]
    by_cases hc : c = '/'
    · simp [hc, List.map_map, Function.comp_def]
    · simp [hc, List.map_map, Function.comp_def]

theorem separatorPrefixes_nil : separatorPrefixes [] = [] := by
  simp [separatorPrefixes]

theorem separatorPrefixes_cons (c : Char) (cs : Str) :
    separatorPrefixes (c :: cs) = prefixesAt [c] cs := by
  rw [prefixesAt_eq_range]
  unfold separatorPrefixes
  rw [List.length_cons, List.range_succ_eq_map, List.filter_cons, List.filter_map]
  simp [List.map_map, Function.comp_def]

theorem mem_separatorPrefixes (dir t : Str) :
    t ∈ separatorPrefixes dir ↔ ∃ i, 0 < i ∧ dir[i]? = some '/' ∧ t = dir.take i := by
  unfold separatorPrefixes
  simp only [List.mem_map, List.mem_filter, List.mem_range, decide_eq_true_eq]
  constructor
  · rintro ⟨i, ⟨_, h0, hi⟩, rfl⟩
    exact ⟨i, h0, hi, rfl⟩
  · rintro ⟨i, h0, hi, rfl⟩
    refine ⟨i, ⟨?_, h0, hi⟩, rfl⟩
    by_contra hlt
    rw [List.getElem?_eq_none (Nat.le_of_not_lt hlt)] at hi
    exact absurd hi (by simp)

theorem createMissing_append (env : Env FS) (mode : Int) (xs ys : List Str) (w : World FS) :
    createMissing env mode (xs ++ ys) w =
      if (createMissing env mode xs w).1 = true
      then createMissing env mode ys (createMissing env mode xs w).2
      else (false, (createMissing env mode xs w).2) := by
  induction xs generalizing w with
  | nil => simp [createMissing]
  | cons t ts ih =>
    simp only [List.cons_append, createMissing]
    split
    · split
      · simp
      · exact ih _
    · exact ih _

/-- The loop of `mkdir_recursive`, started behind `pre` on a C string `cs`
(terminated by a NUL byte), is the specification's walk over the truncations
at the separators of `cs`; it leaves the buffer as it found it. -/
theorem mkdirWalk_eq (env : Env FS) (mode : Int) (cs : Str) (hcs : ∀ c ∈ cs, c ≠ NUL)
    (pre : Str) (hpre : ∀ c ∈ pre, c ≠ NUL) (z : Str) (w : World FS) :
    mkdirWalk env mode pre (cs ++ NUL :: z) w =
      (if (createMissing env mode (prefixesAt pre cs) w).1 = true
       then some (pre ++ (cs ++ NUL :: z)) else none,
       (createMissing env mode (prefixesAt pre cs) w).2) := by
  induction cs generalizing pre w with
  | nil => simp [mkdirWalk, prefixesAt, createMissing]
  | cons c cs ih =>
    have hc : c ≠ NUL := hcs c (by simp)
    have hcs2 : ∀ x ∈ cs, x ≠ NUL := fun x hx => hcs x (by simp [hx])
    have hpre2 : ∀ x ∈ pre ++ [c], x ≠ NUL := by
      intro x hx
      rcases List.mem_append.1 hx with h | h
      · exact hpre x h
      · rw [List.mem_singleton.1 h]; exact hc
    simp only [List.cons_append, mkdirWalk, if_neg hc, prefixesAt, List.append_eq]
    by_cases hs : c = '/'
    · subst hs
      simp only [if_true, createMissing]
      rw [cstr_append_nul pre _ hpre]
      split
      · split
        · simp
        · rw [ih hcs2 _ hpre2]; simp
      · rw [ih hcs2 _ hpre2]; simp
    · simp only [if_neg hs]
      rw [ih hcs2 _ hpre2]; simp

theorem strncpy_eq (s : Str) (n : Nat) (h : s.length ≤ n) :
    strncpy s (n + 1) = cstr s ++ NUL :: List.replicate (n - (cstr s).length) NUL := by
  have hl : (cstr s).length ≤ n := le_trans (cstr_length_le s) h
  unfold strncpy
  rw [List.take_of_length_le (by omega)]
  have e : n + 1 - (cstr s).length = (n - (cstr s).length) + 1 := by omega
  rw [e, List.replicate_succ]

theorem mkdirFinal_eq (env : Env FS) (mode : Int) (buf : Str) (w : World FS) :
    mkdirFinal env mode buf w =
      (if (createMissing env mode [cstr buf] w).1 = true then 0 else -1,
       (createMissing env mode [cstr buf] w).2) := by
  simp only [mkdirFinal, createMissing]
  split
  · split <;> simp
  · simp

/-- The loop and the final step of `mkdir_recursive` on the buffer filled by
`strncpy`, as the specification's walk over the separator prefixes of the
path followed by the path itself. -/
theorem mkdirWalk_final_eq (env : Env FS) (mode : Int) (s : Str) (h : s.length ≤ env.PATH_MAX)
    (w : World FS) :
    (match mkdirWalk env mode ((strncpy s (env.PATH_MAX + 1)).take 1)
        ((strncpy s (env.PATH_MAX + 1)).drop 1) w with
      | (none, w3) => ((-1 : Int), w3)
      | (some buf, w3) => mkdirFinal env mode buf w3) =
      (if (createMissing env mode (separatorPrefixes (cstr s) ++ [cstr s]) w).1 = true
       then 0 else -1,
       (createMissing env mode (separatorPrefixes (cstr s) ++ [cstr s]) w).2) := by
  rw [strncpy_eq s _ h, createMissing_append]
  have hn := cstr_no_nul s
  generalize env.PATH_MAX - (cstr s).length = k
  cases hd : cstr s with
  | nil =>
    rw [separatorPrefixes_nil]
    cases k with
    | zero => simp [mkdirWalk, mkdirFinal_eq, createMissing, cstr, NUL]
    | succ k =>
      simp [mkdirWalk, mkdirFinal_eq, createMissing, cstr, List.replicate_succ, NUL]
  | cons c cs =>
    rw [hd] at hn
    have hc : ∀ x ∈ [c], x ≠ NUL := fun x hx => hn x (by
      rw [List.mem_singleton.1 hx]; simp)
    have hcs : ∀ x ∈ cs, x ≠ NUL := fun x hx => hn x (by simp [hx])
    rw [separatorPrefixes_cons]
    simp only [List.cons_append, List.take_succ_cons, List.take_zero, List.drop_succ_cons,
      List.drop_zero]
    rw [mkdirWalk_eq env mode cs hcs [c] hc]
    by_cases hok : (createMissing env mode (prefixesAt [c] cs) w).1 = true
    · simp only [if_pos hok]
      rw [mkdirFinal_eq]
      have e : cstr ([c] ++ (cs ++ NUL :: List.replicate k NUL)) = c :: cs := by
        have := cstr_append_nul (c :: cs) (List.replicate k NUL) hn
        simpa using this
      rw [e]
    · simp only [if_neg hok]
      simp

theorem getLast?_append_of_some {α : Type} (a b : List α) (e : α)
    (h : b.getLast? = some e) : (a ++ b).getLast? = some e := by
  rw [List.getLast?_append, h]
  rfl

/-- The shape of the events of the specification's walk: existence checks
and creation attempts only, and a failed creation attempt is the last event
and makes the walk fail. -/
theorem createMissing_trace (env : Env FS) (mode : Int) (ts : List Str) (w : World FS) :
    ∃ tr, (createMissing env mode ts w).2.trace = w.trace ++ tr ∧
      (∀ e ∈ tr, (∃ p x, e = Event.access p env.F_OK x) ∨ (∃ p x, e = Event.mkdir p mode x)) ∧
      (∀ p m x, Event.mkdir p m x ∈ tr → x < 0 →
        (createMissing env mode ts w).1 = false ∧ tr.getLast? = some (Event.mkdir p m x)) ∧
      ((createMissing env mode ts w).1 = false →
        ∃ p x, x < 0 ∧ tr.getLast? = some (Event.mkdir p mode x)) := by
  induction ts generalizing w with
  | nil => exact ⟨[], by simp [createMissing]⟩
  | cons t ts ih =>
    simp only [createMissing]
    by_cases ha : (sysAccessCall env t env.F_OK w).1 < 0
    · simp only [if_pos ha]
      by_cases hm : (sysMkdirCall env t mode (sysAccessCall env t env.F_OK w).2).1 < 0
      · simp only [if_pos hm]
        refine ⟨[Event.access t env.F_OK (env.sysAccess w.fs t env.F_OK).1,
          Event.mkdir t mode (env.sysMkdir w.fs t mode).1], ?_, ?_, ?_, ?_⟩
        · simp [sysMkdirCall, sysAccessCall, World.sys]
        · intro e he
          simp only [List.mem_cons, List.mem_singleton, List.not_mem_nil, or_false] at he
          rcases he with h | h
          · exact Or.inl ⟨_, _, h⟩
          · exact Or.inr ⟨_, _, h⟩
        · intro p m x hmem _
          simp only [List.mem_cons, List.mem_singleton, List.not_mem_nil, or_false,
            reduceCtorEq, false_or] at hmem
          rw [hmem]
          refine ⟨?_, ?_⟩ <;> simp
        · intro _
          exact ⟨t, (env.sysMkdir w.fs t mode).1, hm, rfl⟩
      · simp only [if_neg hm]
        obtain ⟨tr, h1, h2, h3, h4⟩ :=
          ih (sysMkdirCall env t mode (sysAccessCall env t env.F_OK w).2).2
        refine ⟨[Event.access t env.F_OK (env.sysAccess w.fs t env.F_OK).1,
          Event.mkdir t mode (env.sysMkdir w.fs t mode).1] ++ tr, ?_, ?_, ?_, ?_⟩
        · rw [h1]
          simp [sysMkdirCall, sysAccessCall, World.sys]
        · intro e he
          rcases List.mem_append.1 he with h | h
          · simp only [List.mem_cons, List.mem_singleton, List.not_mem_nil, or_false] at h
            rcases h with h | h
            · exact Or.inl ⟨_, _, h⟩
            · exact Or.inr ⟨_, _, h⟩
          · exact h2 e h
        · intro p m x hmem hx
          rcases List.mem_append.1 hmem with h | h
          · simp only [List.mem_cons, List.mem_singleton, List.not_mem_nil, or_false,
              reduceCtorEq, false_or] at h
            injection h with _ _ hx2
            rw [hx2] at hx
            exact absurd hx hm
          · obtain ⟨r1, r2⟩ := h3 p m x h hx
            exact ⟨r1, getLast?_append_of_some _ _ _ r2⟩
        · intro hf
          obtain ⟨p, x, hx, hl⟩ := h4 hf
          exact ⟨p, x, hx, getLast?_append_of_some _ _ _ hl⟩
    · simp only [if_neg ha]
      obtain ⟨tr, h1, h2, h3, h4⟩ := ih (sysAccessCall env t env.F_OK w).2
      refine ⟨[Event.access t env.F_OK (env.sysAccess w.fs t env.F_OK).1] ++ tr, ?_, ?_, ?_, ?_⟩
      · rw [h1]
        simp [sysAccessCall, World.sys]
      · intro e he
        rcases List.mem_append.1 he with h | h
        · exact Or.inl ⟨_, _, List.mem_singleton.1 h⟩
        · exact h2 e h
      · intro p m x hmem hx
        rcases List.mem_append.1 hmem with h | h
        · simp at h
        · obtain ⟨r1, r2⟩ := h3 p m x h hx
          exact ⟨r1, getLast?_append_of_some _ _ _ r2⟩
      · intro hf
        obtain ⟨p, x, hx, hl⟩ := h4 hf
        exact ⟨p, x, hx, getLast?_append_of_some _ _ _ hl⟩

/-- In a filesystem where a successful `::mkdir` makes its argument exist
and no `::mkdir` removes anything, the specification's walk keeps what
exists, leaves every target existing when it succeeds, and leaves every
directory it created existing. -/
theorem createMissing_exists (env : Env FS) (mode : Int)
    (hmk : ∀ fs p m, 0 ≤ (env.sysMkdir fs p m).1 →
      0 ≤ (env.sysAccess (env.sysMkdir fs p m).2.2 p env.F_OK).1)
    (hkeep : ∀ fs p m q, 0 ≤ (env.sysAccess fs q env.F_OK).1 →
      0 ≤ (env.sysAccess (env.sysMkdir fs p m).2.2 q env.F_OK).1)
    (ts : List Str) (w : World FS) :
    (∀ q, 0 ≤ (env.sysAccess w.fs q env.F_OK).1 →
      0 ≤ (env.sysAccess (createMissing env mode ts w).2.fs q env.F_OK).1) ∧
    ((createMissing env mode ts w).1 = true →
      ∀ t ∈ ts, 0 ≤ (env.sysAccess (createMissing env mode ts w).2.fs t env.F_OK).1) ∧
    (∀ tr, (createMissing env mode ts w).2.trace = w.trace ++ tr →
      ∀ p m x, Event.mkdir p m x ∈ tr → 0 ≤ x →
        0 ≤ (env.sysAccess (createMissing env mode ts w).2.fs p env.F_OK).1) := by
  induction ts generalizing w with
  | nil =>
    refine ⟨fun q h => h, by simp, ?_⟩
    intro tr htr p m x hmem _
    have : tr = [] := by
      have h2 : w.trace ++ tr = w.trace ++ [] := by simpa [createMissing] using htr.symm
      exact List.append_cancel_left h2
    rw [this] at hmem
    simp at hmem
  | cons t ts ih =>
    simp only [createMissing]
    by_cases ha : (sysAccessCall env t env.F_OK w).1 < 0
    · simp only [if_pos ha]
      by_cases hm : (sysMkdirCall env t mode (sysAccessCall env t env.F_OK w).2).1 < 0
      · simp only [if_pos hm]
        refine ⟨?_, by simp, ?_⟩
        · intro q hq
          exact hkeep w.fs t mode q hq
        · intro tr htr p m x hmem hx
          have e : tr = [Event.access t env.F_OK (env.sysAccess w.fs t env.F_OK).1,
              Event.mkdir t mode (env.sysMkdir w.fs t mode).1] := by
            refine List.append_cancel_left (?_ : w.trace ++ _ = w.trace ++ _)
            rw [← htr]
            simp [sysMkdirCall, sysAccessCall, World.sys]
          rw [e] at hmem
          simp only [List.mem_cons, List.mem_singleton, List.not_mem_nil, or_false,
            reduceCtorEq, false_or] at hmem
          injection hmem with _ _ hx2
          rw [hx2] at hx
          exact absurd hm (not_lt.2 hx)
      · simp only [if_neg hm]
        obtain ⟨k1, k2, k3⟩ := ih (sysMkdirCall env t mode (sysAccessCall env t env.F_OK w).2).2
        have hmade : 0 ≤ (env.sysAccess
            (sysMkdirCall env t mode (sysAccessCall env t env.F_OK w).2).2.fs t env.F_OK).1 :=
          hmk w.fs t mode (not_lt.1 hm)
        refine ⟨?_, ?_, ?_⟩
        · intro q hq
          exact k1 q (hkeep w.fs t mode q hq)
        · intro hok u hu
          rcases List.mem_cons.1 hu with h | h
          · rw [h]; exact k1 t hmade
          · exact k2 hok u h
        · intro tr htr p m x hmem hx
          obtain ⟨tr2, g1, _, _, _⟩ := createMissing_trace env mode ts
            (sysMkdirCall env t mode (sysAccessCall env t env.F_OK w).2).2
          have e : tr = [Event.access t env.F_OK (env.sysAccess w.fs t env.F_OK).1,
              Event.mkdir t mode (env.sysMkdir w.fs t mode).1] ++ tr2 := by
            refine List.append_cancel_left (?_ : w.trace ++ _ = w.trace ++ _)
            rw [← htr, g1]
            simp [sysMkdirCall, sysAccessCall, World.sys]
          rw [e] at hmem
          rcases List.mem_append.1 hmem with h | h
          · simp only [List.mem_cons, List.mem_singleton, List.not_mem_nil, or_false,
              reduceCtorEq, false_or] at h
            injection h with hp _ _
            rw [hp]
            exact k1 t hmade
          · exact k3 tr2 g1 p m x h hx
    · simp only [if_neg ha]
      obtain ⟨k1, k2, k3⟩ := ih (sysAccessCall env t env.F_OK w).2
      have hthere : 0 ≤ (env.sysAccess (sysAccessCall env t env.F_OK w).2.fs t env.F_OK).1 :=
        not_lt.1 ha
      refine ⟨?_, ?_, ?_⟩
      · intro q hq
        exact k1 q hq
      · intro hok u hu
        rcases List.mem_cons.1 hu with h | h
        · rw [h]; exact k1 t hthere
        · exact k2 hok u h
      · intro tr htr p m x hmem hx
        obtain ⟨tr2, g1, _, _, _⟩ := createMissing_trace env mode ts
          (sysAccessCall env t env.F_OK w).2
        have e : tr = [Event.access t env.F_OK (env.sysAccess w.fs t env.F_OK).1] ++ tr2 := by
          refine List.append_cancel_left (?_ : w.trace ++ _ = w.trace ++ _)
          rw [← htr, g1]
          simp [sysAccessCall, World.sys]
        rw [e] at hmem
        rcases List.mem_append.1 hmem with h | h
        · simp at h
        · exact k3 tr2 g1 p m x h hx

theorem translate_fst (env : Env FS) (path : Str) (w : World FS) :
    (translate env path false w).1 = translatedPath env path := by
  simp [translate, translatedPath]

/-- The three outcomes of `mkdir_recursive`: rejection by the length check,
rejection by the existence check, and the walk. -/
theorem mkdir_recursive_cases (env : Env FS) (path : Str) (mode : Int) (w : World FS) :
    FileStreamWrapper.mkdir_recursive env path mode w =
      if env.PATH_MAX < (translatedPath env path).length then
        (-1, { (translate env path false w).2 with errno := env.ENAMETOOLONG })
      else if 0 ≤ (env.sysAccess w.fs (checkedPath env path) env.F_OK).1 then
        (-1, { afterChecks env path w with errno := env.EEXIST })
      else
        (if (createMissing env mode
              (separatorPrefixes (cstr (translatedPath env path)) ++
                [cstr (translatedPath env path)]) (afterChecks env path w)).1 = true
         then 0 else -1,
         (createMissing env mode
            (separatorPrefixes (cstr (translatedPath env path)) ++
              [cstr (translatedPath env path)]) (afterChecks env path w)).2) := by
  unfold FileStreamWrapper.mkdir_recursive
  simp only [translate_fst]
  by_cases hl : env.PATH_MAX < (translatedPath env path).length
  · simp only [gt_iff_lt, if_pos hl]
  · simp only [gt_iff_lt, if_neg hl]
    have hacc : (FileStreamWrapper.access env (cstr (translatedPath env path)) env.F_OK
        env.accessUseFileCacheDefault (translate env path false w).2).1 =
        (env.sysAccess w.fs (checkedPath env path) env.F_OK).1 := by
      simp [FileStreamWrapper.access, sysAccessCall, translate, checkedPath, World.log]
    rw [hacc]
    by_cases he : 0 ≤ (env.sysAccess w.fs (checkedPath env path) env.F_OK).1
    · simp only [ge_iff_le, if_pos he]
      rfl
    · simp only [ge_iff_le, if_neg he]
      exact mkdirWalk_final_eq env mode (translatedPath env path) (Nat.le_of_not_lt hl) _

theorem afterChecks_trace (env : Env FS) (path : Str) (w : World FS) :
    (afterChecks env path w).trace = w.trace ++ checkEvents env path w := by
  simp [afterChecks, FileStreamWrapper.access, sysAccessCall, translate, checkedPath,
    World.log, World.sys, checkEvents]

theorem cstr_take (s : Str) (i : Nat) : cstr (s.take i) = (cstr s).take i := by
  induction s generalizing i with
  | nil => simp [cstr]
  | cons a s ih =>
    cases i with
    | zero => simp [cstr]
    | succ i =>
      have ih2 := ih i
      simp only [cstr] at ih2 ⊢
      rw [List.take_succ_cons, List.takeWhile_cons, List.takeWhile_cons]
      split
      · rw [List.take_succ_cons, ih2]
      · simp

theorem cstr_getElem? (s : Str) (i : Nat) (h : i < (cstr s).length) :
    (cstr s)[i]? = s[i]? := by
  obtain ⟨t, ht⟩ := cstr_isPrefixOf_self s
  conv_rhs => rw [← ht]
  rw [List.getElem?_append_left h]

/-- Every truncation of `s` at a separator that is not its first byte is, as
a C string, a separator prefix of the C string of `s` or that C string
itself. -/
theorem cstr_take_mem (s : Str) (i : Nat) (h0 : 0 < i) (hi : s[i]? = some '/') :
    cstr (s.take i) ∈ separatorPrefixes (cstr s) ++ [cstr s] := by
  rw [cstr_take]
  by_cases hlt : i < (cstr s).length
  · apply List.mem_append_left
    rw [mem_separatorPrefixes]
    exact ⟨i, h0, by rw [cstr_getElem? s i hlt]; exact hi, rfl⟩
  · apply List.mem_append_right
    rw [List.take_of_length_le (Nat.le_of_not_lt hlt)]
    exact List.mem_singleton.2 rfl

theorem simpleEnv_mkdir_exists (n : Nat) (tr : Str → Str) (c : Bool) (cached : List Str)
    (fs : SimpleFS) (p : Str) (m : Int)
    (h : 0 ≤ ((simpleEnv n tr c cached).sysMkdir fs p m).1) :
    0 ≤ ((simpleEnv n tr c cached).sysAccess
      ((simpleEnv n tr c cached).sysMkdir fs p m).2.2 p (simpleEnv n tr c cached).F_OK).1 := by
  simp only [simpleEnv, SimpleFS.mkdir, SimpleFS.access] at h ⊢
  by_cases h1 : p ∈ fs.deny
  · simp [h1] at h
  · by_cases h2 : p ∈ fs.dirs
    · simp [h1, h2] at h
    · simp [h1, h2]

theorem simpleEnv_nothing_removed (n : Nat) (tr : Str → Str) (c : Bool) (cached : List Str)
    (fs : SimpleFS) (p : Str) (m : Int) (q : Str)
    (h : 0 ≤ ((simpleEnv n tr c cached).sysAccess fs q (simpleEnv n tr c cached).F_OK).1) :
    0 ≤ ((simpleEnv n tr c cached).sysAccess
      ((simpleEnv n tr c cached).sysMkdir fs p m).2.2 q (simpleEnv n tr c cached).F_OK).1 := by
  simp only [simpleEnv, SimpleFS.mkdir, SimpleFS.access] at h ⊢
  by_cases hq : q ∈ fs.dirs
  · by_cases h1 : p ∈ fs.deny
    · simp [h1, hq]
    · by_cases h2 : p ∈ fs.dirs
      · simp [h1, h2, hq]
      · simp [h1, h2, hq]
  · simp [hq] at h

/-- The events of a call of `mkdir_recursive` that passes the length check:
the events of the checks, followed by events of the walk. -/
theorem mkdir_recursive_events (env : Env FS) (path : Str) (mode : Int) (w : World FS)
    (hl : ¬ env.PATH_MAX < (translatedPath env path).length) :
    ∃ tr, eventsSince w (FileStreamWrapper.mkdir_recursive env path mode w).2 =
        checkEvents env path w ++ tr ∧
      (0 ≤ (env.sysAccess w.fs (checkedPath env path) env.F_OK).1 → tr = []) ∧
      ((env.sysAccess w.fs (checkedPath env path) env.F_OK).1 < 0 →
        (createMissing env mode
          (separatorPrefixes (cstr (translatedPath env path)) ++
            [cstr (translatedPath env path)]) (afterChecks env path w)).2.trace =
          (afterChecks env path w).trace ++ tr) := by
  rw [mkdir_recursive_cases, if_neg hl]
  by_cases he : 0 ≤ (env.sysAccess w.fs (checkedPath env path) env.F_OK).1
  · rw [if_pos he]
    refine ⟨[], ?_, fun _ => rfl, fun h => absurd he (not_le.2 h)⟩
    apply eventsSince_of_append
    simp [afterChecks_trace]
  · rw [if_neg he]
    obtain ⟨tr, h1, _⟩ := createMissing_trace env mode
      (separatorPrefixes (cstr (translatedPath env path)) ++ [cstr (translatedPath env path)])
      (afterChecks env path w)
    refine ⟨tr, ?_, fun h => absurd h he, fun _ => h1⟩
    apply eventsSince_of_append
    simp only [h1, afterChecks_trace, List.append_assoc]

/-- C10, amended. For a path that passes the length check and the existence
check, `mkdir_recursive` is the walk over the C string of the translated
path: for each prefix obtained by truncating it at a `/` separator other
than its first byte, by increasing length, and then for the complete path,
an existence check and, when that fails, a creation attempt.  The first
failed creation attempt ends the call with -1; without one the call returns
0. -/
theorem mkdir_recursive_walks_separator_prefixes (env : Env FS) (path : Str) (mode : Int)
    (w : World FS) (hlen : (translatedPath env path).length ≤ env.PATH_MAX)
    (hmiss : (env.sysAccess w.fs (checkedPath env path) env.F_OK).1 < 0) :
    FileStreamWrapper.mkdir_recursive env path mode w =
      (if (createMissing env mode
            (separatorPrefixes (cstr (translatedPath env path)) ++
              [cstr (translatedPath env path)]) (afterChecks env path w)).1 = true
       then 0 else -1,
       (createMissing env mode
          (separatorPrefixes (cstr (translatedPath env path)) ++
            [cstr (translatedPath env path)]) (afterChecks env path w)).2) := by
  rw [mkdir_recursive_cases, if_neg (not_lt.2 hlen), if_neg (not_le.2 hmiss)]

/-- C1, amended. In a filesystem where a successful `::mkdir` makes its
argument exist and no `::mkdir` removes anything, after a call of
`mkdir_recursive` that returns 0 the translated full path exists, and so
does every non-empty prefix of it that ends immediately before a `/`
separator. -/
theorem mkdir_recursive_success_creates_prefixes (env : Env FS) (path : Str) (mode : Int)
    (w : World FS)
    (hmk : ∀ fs p m, 0 ≤ (env.sysMkdir fs p m).1 →
      0 ≤ (env.sysAccess (env.sysMkdir fs p m).2.2 p env.F_OK).1)
    (hkeep : ∀ fs p m q, 0 ≤ (env.sysAccess fs q env.F_OK).1 →
      0 ≤ (env.sysAccess (env.sysMkdir fs p m).2.2 q env.F_OK).1)
    (hret : (FileStreamWrapper.mkdir_recursive env path mode w).1 = 0) :
    pathExists env (FileStreamWrapper.mkdir_recursive env path mode w).2.fs
      (translatedPath env path) ∧
    ∀ i, 0 < i → (translatedPath env path)[i]? = some '/' →
      pathExists env (FileStreamWrapper.mkdir_recursive env path mode w).2.fs
        ((translatedPath env path).take i) := by
  rw [mkdir_recursive_cases] at hret ⊢
  by_cases hl : env.PATH_MAX < (translatedPath env path).length
  · rw [if_pos hl] at hret
    simp at hret
  · rw [if_neg hl] at hret ⊢
    by_cases he : 0 ≤ (env.sysAccess w.fs (checkedPath env path) env.F_OK).1
    · rw [if_pos he] at hret
      simp at hret
    · rw [if_neg he] at hret ⊢
      have hok : (createMissing env mode
          (separatorPrefixes (cstr (translatedPath env path)) ++
            [cstr (translatedPath env path)]) (afterChecks env path w)).1 = true := by
        by_contra hne
        simp [hne] at hret
      have hall := (createMissing_exists env mode hmk hkeep
        (separatorPrefixes (cstr (translatedPath env path)) ++ [cstr (translatedPath env path)])
        (afterChecks env path w)).2.1 hok
      refine ⟨?_, ?_⟩
      · exact hall _ (List.mem_append_right _ (List.mem_singleton.2 rfl))
      · intro i h0 hi
        exact hall _ (cstr_take_mem _ i h0 hi)

/-- C2. When a creation attempt of `mkdir_recursive` fails, the call returns
-1 and the failed attempt is its last step, so that no further creation is
attempted; and in a filesystem where a successful `::mkdir` makes its
argument exist and no `::mkdir` removes anything, every directory the call
created before still exists afterwards. -/
theorem mkdir_recursive_creation_failure_aborts (env : Env FS) (path : Str) (mode : Int)
    (w : World FS) (p : Str) (m x : Int) (hx : x < 0)
    (hfail : Event.mkdir p m x ∈
      eventsSince w (FileStreamWrapper.mkdir_recursive env path mode w).2) :
    (FileStreamWrapper.mkdir_recursive env path mode w).1 = -1 ∧
    (eventsSince w (FileStreamWrapper.mkdir_recursive env path mode w).2).getLast? =
      some (Event.mkdir p m x) ∧
    ((∀ fs p m, 0 ≤ (env.sysMkdir fs p m).1 →
        0 ≤ (env.sysAccess (env.sysMkdir fs p m).2.2 p env.F_OK).1) →
     (∀ fs p m q, 0 ≤ (env.sysAccess fs q env.F_OK).1 →
        0 ≤ (env.sysAccess (env.sysMkdir fs p m).2.2 q env.F_OK).1) →
     ∀ q n y, Event.mkdir q n y ∈
         eventsSince w (FileStreamWrapper.mkdir_recursive env path mode w).2 → 0 ≤ y →
       0 ≤ (env.sysAccess (FileStreamWrapper.mkdir_recursive env path mode w).2.fs q
         env.F_OK).1) := by
  by_cases hl : env.PATH_MAX < (translatedPath env path).length
  · have hev : eventsSince w (FileStreamWrapper.mkdir_recursive env path mode w).2 =
        [Event.translate false (removeScheme path)] := by
      rw [mkdir_recursive_cases, if_pos hl]
      apply eventsSince_of_append
      simp [translate, World.log]
    rw [hev] at hfail
    simp at hfail
  · obtain ⟨tr, hev, _, htr⟩ := mkdir_recursive_events env path mode w hl
    rw [hev] at hfail ⊢
    have hin : Event.mkdir p m x ∈ tr := by
      rcases List.mem_append.1 hfail with h | h
      · simp [checkEvents] at h
      · exact h
    by_cases he : 0 ≤ (env.sysAccess w.fs (checkedPath env path) env.F_OK).1
    · rename_i hnil
      rw [hnil he] at hin
      simp at hin
    · have hneg := not_le.1 he
      obtain ⟨tr2, g1, _, g3, _⟩ := createMissing_trace env mode
        (separatorPrefixes (cstr (translatedPath env path)) ++ [cstr (translatedPath env path)])
        (afterChecks env path w)
      have htr2 : tr2 = tr := List.append_cancel_left ((g1.symm.trans (htr hneg)))
      rw [htr2] at g3
      obtain ⟨r1, r2⟩ := g3 p m x hin hx
      rw [mkdir_recursive_cases, if_neg hl, if_neg he]
      refine ⟨by simp [r1], getLast?_append_of_some _ _ _ r2, ?_⟩
      intro hmk hkeep q n y hq hy
      have hq2 : Event.mkdir q n y ∈ tr := by
        rcases List.mem_append.1 hq with h | h
        · simp [checkEvents] at h
        · exact h
      exact (createMissing_exists env mode hmk hkeep _ (afterChecks env path w)).2.2 tr
        (htr hneg) q n y hq2 hy

/-- C3, amended. For a path whose translated full path is no longer than
`PATH_MAX`, already exists, and is the path the existence check examines
(the second translation made by the member `access` leaves it unchanged),
`mkdir_recursive` returns -1 with `errno` set to `EEXIST`; its only steps are
the two translations and the existence check, so no `::mkdir` is called and
the filesystem is unchanged. -/
theorem mkdir_recursive_existing_path (env : Env FS) (path : Str) (mode : Int)
    (w : World FS) (hlen : (translatedPath env path).length ≤ env.PATH_MAX)
    (hsame : checkedPath env path = cstr (translatedPath env path))
    (hex : pathExists env w.fs (translatedPath env path)) :
    (FileStreamWrapper.mkdir_recursive env path mode w).1 = -1 ∧
    (FileStreamWrapper.mkdir_recursive env path mode w).2.errno = env.EEXIST ∧
    (FileStreamWrapper.mkdir_recursive env path mode w).2.fs = w.fs ∧
    eventsSince w (FileStreamWrapper.mkdir_recursive env path mode w).2 =
      checkEvents env path w ∧
    ∀ e ∈ eventsSince w (FileStreamWrapper.mkdir_recursive env path mode w).2,
      e.isMkdir = false := by
  have he : 0 ≤ (env.sysAccess w.fs (checkedPath env path) env.F_OK).1 := by
    rw [hsame]; exact hex
  obtain ⟨tr, hev, hnil, _⟩ := mkdir_recursive_events env path mode w (not_lt.2 hlen)
  rw [hnil he, List.append_nil] at hev
  rw [hev]
  rw [mkdir_recursive_cases, if_neg (not_lt.2 hlen), if_pos he]
  refine ⟨rfl, rfl, rfl, rfl, ?_⟩
  intro e hmem
  simp only [checkEvents, List.mem_cons, List.mem_singleton, List.not_mem_nil, or_false] at hmem
  rcases hmem with h | h | h <;> rw [h] <;> rfl

/-- C4. For a path whose translated full path is longer than `PATH_MAX`,
`mkdir_recursive` returns -1 with `errno` set to `ENAMETOOLONG`; its only
step is the translation, so no `::mkdir` is called and the filesystem is
unchanged.  A translated path of length exactly `PATH_MAX` passes the length
check: the call goes on to the existence check. -/
theorem mkdir_recursive_name_too_long (env : Env FS) (path : Str) (mode : Int)
    (w : World FS) :
    (env.PATH_MAX < (translatedPath env path).length →
      (FileStreamWrapper.mkdir_recursive env path mode w).1 = -1 ∧
      (FileStreamWrapper.mkdir_recursive env path mode w).2.errno = env.ENAMETOOLONG ∧
      (FileStreamWrapper.mkdir_recursive env path mode w).2.fs = w.fs ∧
      eventsSince w (FileStreamWrapper.mkdir_recursive env path mode w).2 =
        [Event.translate false (removeScheme path)]) ∧
    ((translatedPath env path).length = env.PATH_MAX →
      ∃ tr, eventsSince w (FileStreamWrapper.mkdir_recursive env path mode w).2 =
        checkEvents env path w ++ tr) := by
  constructor
  · intro hl
    rw [mkdir_recursive_cases, if_pos hl]
    refine ⟨rfl, rfl, rfl, ?_⟩
    apply eventsSince_of_append
    simp [translate, World.log]
  · intro hl
    obtain ⟨tr, hev, _, _⟩ := mkdir_recursive_events env path mode w (by omega)
    exact ⟨tr, hev⟩

end MkdirProofs

/-! ## The paths handed to the translators -/

section TranslatorProofs

variable {FS : Type}

theorem translatorArgs_append (xs ys : List Event) :
    translatorArgs (xs ++ ys) = translatorArgs xs ++ translatorArgs ys := by
  induction xs with
  | nil => rfl
  | cons e xs ih => cases e <;> simp [translatorArgs, ih]

theorem translatorArgs_eq_nil (tr : List Event)
    (h : ∀ e ∈ tr, ∀ u a, e ≠ Event.translate u a) : translatorArgs tr = [] := by
  induction tr with
  | nil => rfl
  | cons e tr ih =>
    have ih2 := ih (fun e2 he2 => h e2 (List.mem_cons_of_mem _ he2))
    cases e with
    | translate u a => exact absurd rfl (h (Event.translate u a) (List.mem_cons_self _ _) u a)
    | _ => simpa [translatorArgs] using ih2

theorem not_begins_cstr (s : Str) (h : ¬ beginsWithScheme s) : ¬ beginsWithScheme (cstr s) :=
  fun hc => h (List.IsPrefix.trans hc (cstr_isPrefixOf_self s))

theorem openFromCache_args (env : Env FS) (filename mode : Str) (w : World FS) :
    ∃ tr, (FileStreamWrapper.openFromCache env filename mode w).2.trace = w.trace ++ tr ∧
      ∀ x ∈ translatorArgs tr, x = filename := by
  refine ⟨_, by rw [openFromCache_snd], ?_⟩
  intro x hx
  split at hx
  · simpa [translatorArgs] using hx
  · simp [translatorArgs] at hx

theorem includePathStep_args (env : Env FS) (fname : Str) (options : Int) (w : World FS) :
    ∃ tr, (includePathStep env fname options w).2.trace = w.trace ++ tr ∧
      translatorArgs tr = [] := by
  refine ⟨_, by rw [includePathStep_snd], ?_⟩
  split <;> rfl

theorem includePathStep_name (env : Env FS) (fname : Str) (options : Int) (w : World FS) :
    (includePathStep env fname options w).1 = fname ∨
      ∃ fs, env.resolveVmInclude fs fname = some (includePathStep env fname options w).1 := by
  unfold includePathStep
  split
  · cases hr : env.resolveVmInclude w.fs fname with
    | none => exact Or.inl rfl
    | some r => exact Or.inr ⟨_, hr⟩
  · exact Or.inl rfl

theorem plainOpenStep_args (env : Env FS) (fname mode : Str) (w : World FS) :
    ∃ tr, (plainOpenStep env fname mode w).2.trace = w.trace ++ tr ∧
      translatorArgs tr = [fname] := by
  refine ⟨_, plainOpenStep_trace env fname mode w, ?_⟩
  split <;> rfl

theorem open_translatorArgs (env : Env FS) (filename mode : Str) (options : Int)
    (w : World FS) (x : Str)
    (hx : x ∈ translatorArgs
      (eventsSince w (FileStreamWrapper.open env filename mode options w).2)) :
    x = removeScheme filename ∨
      ∃ fs, env.resolveVmInclude fs (removeScheme filename) = some x := by
  obtain ⟨trc, hc1, hc2⟩ := openFromCache_args env (removeScheme filename) mode w
  cases hp : (FileStreamWrapper.openFromCache env (removeScheme filename) mode w).1 with
  | some file =>
    rw [open_eq_of_probe_some env filename mode options w file hp,
      eventsSince_of_append w _ _ hc1] at hx
    exact Or.inl (hc2 x hx)
  | none =>
    obtain ⟨tri, hi1, hi2⟩ := includePathStep_args env (removeScheme filename) options
      (FileStreamWrapper.openFromCache env (removeScheme filename) mode w).2
    obtain ⟨trp, hp1, hp2⟩ := plainOpenStep_args env
      (includePathStep env (removeScheme filename) options
        (FileStreamWrapper.openFromCache env (removeScheme filename) mode w).2).1 mode
      (includePathStep env (removeScheme filename) options
        (FileStreamWrapper.openFromCache env (removeScheme filename) mode w).2).2
    rw [hi1, hc1, List.append_assoc, List.append_assoc] at hp1
    rw [open_eq_of_probe_none env filename mode options w hp,
      eventsSince_of_append w _ _ hp1, translatorArgs_append, translatorArgs_append,
      hi2, hp2] at hx
    rcases List.mem_append.1 hx with h | h
    · exact Or.inl (hc2 x h)
    · simp only [List.nil_append, List.mem_singleton] at h
      rw [h]
      exact includePathStep_name env (removeScheme filename) options _

theorem mkdir_recursive_translatorArgs (env : Env FS) (path : Str) (mode : Int)
    (w : World FS) (x : Str)
    (hx : x ∈ translatorArgs
      (eventsSince w (FileStreamWrapper.mkdir_recursive env path mode w).2)) :
    x = removeScheme path ∨ x = removeScheme (cstr (translatedPath env path)) := by
  by_cases hl : env.PATH_MAX < (translatedPath env path).length
  · have hev : eventsSince w (FileStreamWrapper.mkdir_recursive env path mode w).2 =
        [Event.translate false (removeScheme path)] := by
      rw [mkdir_recursive_cases, if_pos hl]
      apply eventsSince_of_append
      simp [translate, World.log]
    rw [hev] at hx
    simp only [translatorArgs, List.mem_singleton] at hx
    exact Or.inl hx
  · obtain ⟨tr, hev, hnil, htr⟩ := mkdir_recursive_events env path mode w hl
    have hargs : translatorArgs tr = [] := by
      by_cases he : 0 ≤ (env.sysAccess w.fs (checkedPath env path) env.F_OK).1
      · rw [hnil he]; rfl
      · obtain ⟨tr2, g1, g2, _, _⟩ := createMissing_trace env mode
          (separatorPrefixes (cstr (translatedPath env path)) ++
            [cstr (translatedPath env path)]) (afterChecks env path w)
        have htr2 : tr2 = tr := List.append_cancel_left (g1.symm.trans (htr (not_le.1 he)))
        rw [htr2] at g2
        apply translatorArgs_eq_nil
        intro e he2 u a heq
        rcases g2 e he2 with ⟨_, _, h3⟩ | ⟨_, _, h3⟩ <;> rw [heq] at h3 <;> simp at h3
    rw [hev, translatorArgs_append, hargs] at hx
    simp only [checkEvents, translatorArgs, List.append_nil, List.mem_cons, List.mem_singleton,
      List.not_mem_nil, or_false] at hx
    exact hx

theorem single_translate_args (w w2 : World FS) (u : Bool) (a : Str) (e : Event)
    (h : w2.trace = (w.trace ++ [Event.translate u a]) ++ [e])
    (he : translatorArgs [e] = []) :
    translatorArgs (eventsSince w w2) = [a] := by
  rw [eventsSince_of_append w w2 [Event.translate u a, e] (by rw [h, List.append_assoc]; rfl)]
  show a :: translatorArgs [e] = [a]
  rw [he]

/-- C7, amended. For every operation of the wrapper other than `opendir`,
when no logical path still begins with `file://` after one `removeScheme`
(the prefix occurs at most once), the include-path resolver returns no hit
that begins with it, and the default translator does not introduce it, no
string handed to a physical-path translator begins with `file://`. -/
theorem translator_args_without_scheme (env : Env FS) (w : World FS) (op : Op)
    (hop : op.isOpendir = false)
    (hpaths : ∀ p ∈ op.paths, ¬ beginsWithScheme (removeScheme p))
    (hres : ∀ fs f r, env.resolveVmInclude fs f = some r → ¬ beginsWithScheme r)
    (htr : ∀ s, ¬ beginsWithScheme s → ¬ beginsWithScheme (env.TranslatePath s)) :
    ∀ a ∈ translatorArgs (eventsSince w (op.run env w)), ¬ beginsWithScheme a := by
  have hrec : ∀ (p : Str) (mode : Int), ¬ beginsWithScheme (removeScheme p) →
      ∀ a ∈ translatorArgs
        (eventsSince w (FileStreamWrapper.mkdir_recursive env p mode w).2),
        ¬ beginsWithScheme a := by
    intro p mode hp a ha
    rcases mkdir_recursive_translatorArgs env p mode w a ha with h | h
    · rw [h]; exact hp
    · rw [h]
      have h2 : ¬ beginsWithScheme (cstr (translatedPath env p)) :=
        not_begins_cstr _ (htr _ hp)
      rw [removeScheme_of_not_begins _ h2]
      exact h2
  intro a ha
  cases op with
  | «open» f m o =>
    have hf := hpaths f (by simp [Op.paths])
    rcases open_translatorArgs env f m o w a ha with h | ⟨fs, h⟩
    · rw [h]; exact hf
    · exact hres fs _ a h
  | opendir p => simp [Op.isOpendir] at hop
  | access p m u =>
    have hp := hpaths p (by simp [Op.paths])
    have e := single_translate_args w (FileStreamWrapper.access env p m u w).2 u
      (removeScheme p) _ rfl rfl
    simp only [Op.run, e, List.mem_singleton] at ha
    rw [ha]; exact hp
  | stat p u =>
    have hp := hpaths p (by simp [Op.paths])
    have e := single_translate_args w (FileStreamWrapper.stat env p u w).2 u
      (removeScheme p) _ rfl rfl
    simp only [Op.run, e, List.mem_singleton] at ha
    rw [ha]; exact hp
  | lstat p u =>
    have hp := hpaths p (by simp [Op.paths])
    have e := single_translate_args w (FileStreamWrapper.lstat env p u w).2 u
      (removeScheme p) _ rfl rfl
    simp only [Op.run, e, List.mem_singleton] at ha
    rw [ha]; exact hp
  | unlink p =>
    have hp := hpaths p (by simp [Op.paths])
    have e := single_translate_args w (FileStreamWrapper.unlink env p w).2 false
      (removeScheme p) _ rfl rfl
    simp only [Op.run, e, List.mem_singleton] at ha
    rw [ha]; exact hp
  | rmdir p o =>
    have hp := hpaths p (by simp [Op.paths])
    have e := single_translate_args w (FileStreamWrapper.rmdir env p o w).2 false
      (removeScheme p) _ rfl rfl
    simp only [Op.run, e, List.mem_singleton] at ha
    rw [ha]; exact hp
  | rename o n =>
    have ho := hpaths o (by simp [Op.paths])
    have hn := hpaths n (by simp [Op.paths])
    have e : eventsSince w (FileStreamWrapper.rename env o n w).2 =
        [Event.translate false (removeScheme o), Event.translate false (removeScheme n),
         Event.rename env.UseDirectCopy (cstr (env.TranslatePath (removeScheme o)))
           (cstr (env.TranslatePath (removeScheme n)))
           (FileStreamWrapper.rename env o n w).1] := by
      apply eventsSince_of_append
      simp [FileStreamWrapper.rename, translate, World.log, World.sys]
    simp only [Op.run, e, translatorArgs, List.mem_cons, List.mem_singleton,
      List.not_mem_nil, or_false] at ha
    rcases ha with h | h
    · rw [h]; exact ho
    · rw [h]; exact hn
  | mkdir p m o =>
    have hp := hpaths p (by simp [Op.paths])
    simp only [Op.run, FileStreamWrapper.mkdir] at ha
    split at ha
    · exact hrec p m hp a ha
    · have e := single_translate_args w
        (sysMkdirCall env (cstr (translate env p false w).1) m (translate env p false w).2).2
        false (removeScheme p) _ rfl rfl
      rw [e, List.mem_singleton] at ha
      rw [ha]; exact hp
  | mkdir_recursive p m =>
    exact hrec p m (hpaths p (by simp [Op.paths])) a ha

end TranslatorProofs

/-! ## The properties at concrete inputs -/

/-- C1 as stated fails on the empty prefix: `/a` begins with a separator, so
its empty prefix ends immediately before a `/`; with `/` existing and `/a`
not, the call returns 0 and creates `/a`, and the empty path still does not
exist.  The filesystem is one where a successful `::mkdir` makes its
argument exist and nothing is removed. -/
theorem mkdir_recursive_empty_prefix_missing :
    (FileStreamWrapper.mkdir_recursive (simpleEnv 4096 id false []) pathA 0
      (simpleWorld [pathRoot] [])).1 = 0 ∧
    (translatedPath (simpleEnv 4096 id false []) pathA)[0]? = some '/' ∧
    (translatedPath (simpleEnv 4096 id false []) pathA).take 0 = [] ∧
    ¬ pathExists (simpleEnv 4096 id false [])
      (FileStreamWrapper.mkdir_recursive (simpleEnv 4096 id false []) pathA 0
        (simpleWorld [pathRoot] [])).2.fs
      ((translatedPath (simpleEnv 4096 id false []) pathA).take 0) ∧
    pathExists (simpleEnv 4096 id false [])
      (FileStreamWrapper.mkdir_recursive (simpleEnv 4096 id false []) pathA 0
        (simpleWorld [pathRoot] [])).2.fs pathA := by
  decide

/-- C1, amended, at `/a/b/c` where `/a` exists and `/a/b` and `/a/b/c` do
not: the call returns 0, and afterwards both `/a/b` and `/a/b/c` exist. -/
theorem mkdir_recursive_success_creates_prefixes_witness :
    (pathExists (simpleEnv 4096 id false []) (simpleWorld [pathRoot, pathA] []).fs pathA ∧
     ¬ pathExists (simpleEnv 4096 id false []) (simpleWorld [pathRoot, pathA] []).fs pathAB ∧
     ¬ pathExists (simpleEnv 4096 id false []) (simpleWorld [pathRoot, pathA] []).fs pathABC) ∧
    (FileStreamWrapper.mkdir_recursive (simpleEnv 4096 id false []) pathABC 0
      (simpleWorld [pathRoot, pathA] [])).1 = 0 ∧
    pathExists (simpleEnv 4096 id false [])
      (FileStreamWrapper.mkdir_recursive (simpleEnv 4096 id false []) pathABC 0
        (simpleWorld [pathRoot, pathA] [])).2.fs pathABC ∧
    pathExists (simpleEnv 4096 id false [])
      (FileStreamWrapper.mkdir_recursive (simpleEnv 4096 id false []) pathABC 0
        (simpleWorld [pathRoot, pathA] [])).2.fs pathAB :=
  ⟨by decide, by decide,
   (mkdir_recursive_success_creates_prefixes (simpleEnv 4096 id false []) pathABC 0
      (simpleWorld [pathRoot, pathA] []) (simpleEnv_mkdir_exists 4096 id false [])
      (simpleEnv_nothing_removed 4096 id false []) (by decide)).1,
   (mkdir_recursive_success_creates_prefixes (simpleEnv 4096 id false []) pathABC 0
      (simpleWorld [pathRoot, pathA] []) (simpleEnv_mkdir_exists 4096 id false [])
      (simpleEnv_nothing_removed 4096 id false []) (by decide)).2 4 (by decide) (by decide)⟩

/-- C2 at `/a/b/c` where `/a` exists, creating `/a/b` succeeds and creating
`/a/b/c` is refused: the call returns -1, the refused attempt is its last
step, `/a/b` exists afterwards and `/a/b/c` does not. -/
theorem mkdir_recursive_creation_failure_aborts_witness :
    (FileStreamWrapper.mkdir_recursive (simpleEnv 4096 id false []) pathABC 0
      (simpleWorld [pathRoot, pathA] [pathABC])).1 = -1 ∧
    (eventsSince (simpleWorld [pathRoot, pathA] [pathABC])
      (FileStreamWrapper.mkdir_recursive (simpleEnv 4096 id false []) pathABC 0
        (simpleWorld [pathRoot, pathA] [pathABC])).2).getLast? =
      some (Event.mkdir pathABC 0 (-1)) ∧
    pathExists (simpleEnv 4096 id false [])
      (FileStreamWrapper.mkdir_recursive (simpleEnv 4096 id false []) pathABC 0
        (simpleWorld [pathRoot, pathA] [pathABC])).2.fs pathAB ∧
    ¬ pathExists (simpleEnv 4096 id false [])
      (FileStreamWrapper.mkdir_recursive (simpleEnv 4096 id false []) pathABC 0
        (simpleWorld [pathRoot, pathA] [pathABC])).2.fs pathABC :=
  ⟨(mkdir_recursive_creation_failure_aborts (simpleEnv 4096 id false []) pathABC 0
      (simpleWorld [pathRoot, pathA] [pathABC]) pathABC 0 (-1) (by decide) (by decide)).1,
   (mkdir_recursive_creation_failure_aborts (simpleEnv 4096 id false []) pathABC 0
      (simpleWorld [pathRoot, pathA] [pathABC]) pathABC 0 (-1) (by decide) (by decide)).2.1,
   (mkdir_recursive_creation_failure_aborts (simpleEnv 4096 id false []) pathABC 0
      (simpleWorld [pathRoot, pathA] [pathABC]) pathABC 0 (-1) (by decide) (by decide)).2.2
      (simpleEnv_mkdir_exists 4096 id false []) (simpleEnv_nothing_removed 4096 id false [])
      pathAB 0 0 (by decide) (by decide),
   by decide⟩

theorem pathLongA_translated :
    translatedPath (simpleEnv 4096 id false []) pathLongA = pathLongA := by
  have h : ¬ beginsWithScheme pathLongA := by
    intro hp
    obtain ⟨t, ht⟩ := hp
    have h1 : (fileScheme ++ t).head? = some 'f' := rfl
    have h2 : pathLongA.head? = some '/' := rfl
    rw [ht, h2] at h1
    exact absurd h1 (by decide)
  exact removeScheme_of_not_begins _ h

theorem pathLongA_cstr : cstr pathLongA = pathA :=
  cstr_append_nul pathA (List.replicate 4094 'x') (by decide)

theorem pathLongA_length : pathLongA.length = 4097 := by
  unfold pathLongA
  rw [List.length_append, List.length_replicate]
  rfl

/-- C3 as stated fails in two ways.  The length check comes first: the path
made of `/a`, a NUL byte and 4094 more bytes is 4097 bytes long and is, for
the operating system, the existing `/a`, and the call fails with
`ENAMETOOLONG` (36), not `EEXIST` (17).  And the existence check examines
the result of a second translation: with a translator that places paths
under `/r`, the translated path `/r/a` of `/a` exists, the check looks for
`/r/r/a`, and the call returns 0. -/
theorem mkdir_recursive_existing_not_eexist :
    (pathExists (simpleEnv 4096 id false []) (simpleWorld [pathRoot, pathA] []).fs
        (translatedPath (simpleEnv 4096 id false []) pathLongA) ∧
      (FileStreamWrapper.mkdir_recursive (simpleEnv 4096 id false []) pathLongA 0
        (simpleWorld [pathRoot, pathA] [])).1 = -1 ∧
      (FileStreamWrapper.mkdir_recursive (simpleEnv 4096 id false []) pathLongA 0
        (simpleWorld [pathRoot, pathA] [])).2.errno = 36 ∧
      (simpleEnv 4096 id false []).EEXIST = 17) ∧
    (pathExists (simpleEnv 4096 underR false [])
        (simpleWorld [pathRoot, underR [], underR pathA] []).fs
        (translatedPath (simpleEnv 4096 underR false []) pathA) ∧
      checkedPath (simpleEnv 4096 underR false []) pathA = underR (underR pathA) ∧
      (FileStreamWrapper.mkdir_recursive (simpleEnv 4096 underR false []) pathA 0
        (simpleWorld [pathRoot, underR [], underR pathA] [])).1 = 0) := by
  have hlong : (simpleEnv 4096 id false []).PATH_MAX <
      (translatedPath (simpleEnv 4096 id false []) pathLongA).length := by
    rw [pathLongA_translated, pathLongA_length]
    decide
  refine ⟨⟨?_, ?_, ?_, rfl⟩, by decide⟩
  · unfold pathExists
    rw [pathLongA_translated, pathLongA_cstr]
    decide
  · rw [mkdir_recursive_cases, if_pos hlong]
  · rw [mkdir_recursive_cases, if_pos hlong]
    rfl

/-- C3, amended, at `/a/b` where `/a/b` exists: the call returns -1 with
`EEXIST`, makes no `::mkdir` call and leaves the filesystem as it was. -/
theorem mkdir_recursive_existing_path_witness :
    (FileStreamWrapper.mkdir_recursive (simpleEnv 4096 id false []) pathAB 0
      (simpleWorld [pathRoot, pathA, pathAB] [])).1 = -1 ∧
    (FileStreamWrapper.mkdir_recursive (simpleEnv 4096 id false []) pathAB 0
      (simpleWorld [pathRoot, pathA, pathAB] [])).2.errno =
      (simpleEnv 4096 id false []).EEXIST ∧
    (FileStreamWrapper.mkdir_recursive (simpleEnv 4096 id false []) pathAB 0
      (simpleWorld [pathRoot, pathA, pathAB] [])).2.fs =
      (simpleWorld [pathRoot, pathA, pathAB] []).fs ∧
    eventsSince (simpleWorld [pathRoot, pathA, pathAB] [])
      (FileStreamWrapper.mkdir_recursive (simpleEnv 4096 id false []) pathAB 0
        (simpleWorld [pathRoot, pathA, pathAB] [])).2 =
      checkEvents (simpleEnv 4096 id false []) pathAB (simpleWorld [pathRoot, pathA, pathAB] []) ∧
    ∀ e ∈ eventsSince (simpleWorld [pathRoot, pathA, pathAB] [])
      (FileStreamWrapper.mkdir_recursive (simpleEnv 4096 id false []) pathAB 0
        (simpleWorld [pathRoot, pathA, pathAB] [])).2, e.isMkdir = false :=
  mkdir_recursive_existing_path (simpleEnv 4096 id false []) pathAB 0
    (simpleWorld [pathRoot, pathA, pathAB] []) (by decide) (by decide) (by decide)

/-- C4 at concrete inputs: with `PATH_MAX` 6, the 7-byte path `/a/b/c/` is
rejected with `ENAMETOOLONG` after the translation alone, and the 6-byte
path `/a/b/c` reaches the existence check. -/
theorem mkdir_recursive_name_too_long_witness :
    ((FileStreamWrapper.mkdir_recursive (simpleEnv 6 id false []) (pathABC ++ ['/']) 0
        (simpleWorld [pathRoot, pathA] [])).1 = -1 ∧
      (FileStreamWrapper.mkdir_recursive (simpleEnv 6 id false []) (pathABC ++ ['/']) 0
        (simpleWorld [pathRoot, pathA] [])).2.errno = (simpleEnv 6 id false []).ENAMETOOLONG ∧
      (FileStreamWrapper.mkdir_recursive (simpleEnv 6 id false []) (pathABC ++ ['/']) 0
        (simpleWorld [pathRoot, pathA] [])).2.fs = (simpleWorld [pathRoot, pathA] []).fs ∧
      eventsSince (simpleWorld [pathRoot, pathA] [])
        (FileStreamWrapper.mkdir_recursive (simpleEnv 6 id false []) (pathABC ++ ['/']) 0
          (simpleWorld [pathRoot, pathA] [])).2 =
        [Event.translate false (removeScheme (pathABC ++ ['/']))]) ∧
    ∃ tr, eventsSince (simpleWorld [pathRoot, pathA] [])
        (FileStreamWrapper.mkdir_recursive (simpleEnv 6 id false []) pathABC 0
          (simpleWorld [pathRoot, pathA] [])).2 =
      checkEvents (simpleEnv 6 id false []) pathABC (simpleWorld [pathRoot, pathA] []) ++ tr :=
  ⟨(mkdir_recursive_name_too_long (simpleEnv 6 id false []) (pathABC ++ ['/']) 0
      (simpleWorld [pathRoot, pathA] [])).1 (by decide),
   (mkdir_recursive_name_too_long (simpleEnv 6 id false []) pathABC 0
      (simpleWorld [pathRoot, pathA] [])).2 (by decide)⟩

/-- C10 as stated fails in two ways.  The separator that is the first byte
of `/a` is not visited: the call on `/a`, which passes both checks, makes no
existence check of the empty prefix.  And a failed creation ends the walk:
on `/a/b/c`, when creating `/a/b` is refused, the complete path is neither
checked nor created after the walk. -/
theorem mkdir_recursive_walk_not_every_separator :
    ((translatedPath (simpleEnv 4096 id false []) pathA).length ≤
        (simpleEnv 4096 id false []).PATH_MAX ∧
      ((simpleEnv 4096 id false []).sysAccess (simpleWorld [pathRoot] []).fs
        (checkedPath (simpleEnv 4096 id false []) pathA) 0).1 < 0 ∧
      allSeparatorPrefixes (cstr (translatedPath (simpleEnv 4096 id false []) pathA)) = [[]] ∧
      eventsSince (simpleWorld [pathRoot] [])
        (FileStreamWrapper.mkdir_recursive (simpleEnv 4096 id false []) pathA 0
          (simpleWorld [pathRoot] [])).2 =
        [Event.translate false pathA, Event.translate false pathA, Event.access pathA 0 (-1),
         Event.access pathA 0 (-1), Event.mkdir pathA 0 0]) ∧
    ((translatedPath (simpleEnv 4096 id false []) pathABC).length ≤
        (simpleEnv 4096 id false []).PATH_MAX ∧
      ((simpleEnv 4096 id false []).sysAccess (simpleWorld [pathRoot, pathA] [pathAB]).fs
        (checkedPath (simpleEnv 4096 id false []) pathABC) 0).1 < 0 ∧
      eventsSince (simpleWorld [pathRoot, pathA] [pathAB])
        (FileStreamWrapper.mkdir_recursive (simpleEnv 4096 id false []) pathABC 0
          (simpleWorld [pathRoot, pathA] [pathAB])).2 =
        [Event.translate false pathABC, Event.translate false pathABC,
         Event.access pathABC 0 (-1),
         Event.access pathA 0 0, Event.access pathAB 0 (-1), Event.mkdir pathAB 0 (-1)]) := by
  decide

/-- C10, amended, at `/a/b/c` where `/a` exists: the call is the walk over
`/a`, `/a/b` and `/a/b/c`, and its steps are the existence check of `/a`,
the failed check and the creation of `/a/b`, and the failed check and the
creation of `/a/b/c`. -/
theorem mkdir_recursive_walks_separator_prefixes_witness :
    separatorPrefixes (cstr (translatedPath (simpleEnv 4096 id false []) pathABC)) ++
      [cstr (translatedPath (simpleEnv 4096 id false []) pathABC)] = [pathA, pathAB, pathABC] ∧
    FileStreamWrapper.mkdir_recursive (simpleEnv 4096 id false []) pathABC 0
        (simpleWorld [pathRoot, pathA] []) =
      (if (createMissing (simpleEnv 4096 id false []) 0
            (separatorPrefixes (cstr (translatedPath (simpleEnv 4096 id false []) pathABC)) ++
              [cstr (translatedPath (simpleEnv 4096 id false []) pathABC)])
            (afterChecks (simpleEnv 4096 id false []) pathABC
              (simpleWorld [pathRoot, pathA] []))).1 = true
       then 0 else -1,
       (createMissing (simpleEnv 4096 id false []) 0
          (separatorPrefixes (cstr (translatedPath (simpleEnv 4096 id false []) pathABC)) ++
            [cstr (translatedPath (simpleEnv 4096 id false []) pathABC)])
          (afterChecks (simpleEnv 4096 id false []) pathABC
            (simpleWorld [pathRoot, pathA] []))).2) ∧
    eventsSince (simpleWorld [pathRoot, pathA] [])
        (FileStreamWrapper.mkdir_recursive (simpleEnv 4096 id false []) pathABC 0
          (simpleWorld [pathRoot, pathA] [])).2 =
      [Event.translate false pathABC, Event.translate false pathABC,
       Event.access pathABC 0 (-1),
       Event.access pathA 0 0, Event.access pathAB 0 (-1), Event.mkdir pathAB 0 0,
       Event.access pathABC 0 (-1), Event.mkdir pathABC 0 0] :=
  ⟨by decide,
   mkdir_recursive_walks_separator_prefixes (simpleEnv 4096 id false []) pathABC 0
     (simpleWorld [pathRoot, pathA] []) (by decide) (by decide),
   by decide⟩

/-- C7 as stated fails in two ways, here with a translator that returns its
argument.  `opendir` hands its path to the translator as it is: for
`file:///a` the translator receives `file:///a`.  And `removeScheme` strips
the prefix once: `unlink` of `file://file:///a` hands `file:///a` to the
translator. -/
theorem translator_receives_scheme :
    (translatorArgs (eventsSince (simpleWorld [pathRoot, pathA] [])
        ((Op.opendir (fileScheme ++ pathA)).run (simpleEnv 4096 id false [])
          (simpleWorld [pathRoot, pathA] []))) = [fileScheme ++ pathA] ∧
      beginsWithScheme (fileScheme ++ pathA)) ∧
    (translatorArgs (eventsSince (simpleWorld [pathRoot, pathA] [])
        ((Op.unlink (fileScheme ++ (fileScheme ++ pathA))).run (simpleEnv 4096 id false [])
          (simpleWorld [pathRoot, pathA] []))) = [fileScheme ++ pathA] ∧
      beginsWithScheme (fileScheme ++ pathA)) := by
  decide

/-- C7, amended, at `mkdir_recursive` of `file:///a/b/c` and at `open` of
`file:///a`, with a translator that returns its argument: the translators
receive `/a/b/c`, twice, and `/a`. -/
theorem translator_args_without_scheme_witness :
    (∀ a ∈ translatorArgs (eventsSince (simpleWorld [pathRoot, pathA] [])
        ((Op.mkdir_recursive (fileScheme ++ pathABC) 0).run (simpleEnv 4096 id false [])
          (simpleWorld [pathRoot, pathA] []))), ¬ beginsWithScheme a) ∧
    translatorArgs (eventsSince (simpleWorld [pathRoot, pathA] [])
        ((Op.mkdir_recursive (fileScheme ++ pathABC) 0).run (simpleEnv 4096 id false [])
          (simpleWorld [pathRoot, pathA] []))) = [pathABC, pathABC] ∧
    (∀ a ∈ translatorArgs (eventsSince (simpleWorld [pathRoot, pathA] [])
        ((Op.open (fileScheme ++ pathA) ['r'] 1).run (simpleEnv 4096 id false [])
          (simpleWorld [pathRoot, pathA] []))), ¬ beginsWithScheme a) ∧
    translatorArgs (eventsSince (simpleWorld [pathRoot, pathA] [])
        ((Op.open (fileScheme ++ pathA) ['r'] 1).run (simpleEnv 4096 id false [])
          (simpleWorld [pathRoot, pathA] []))) = [pathA] :=
  ⟨translator_args_without_scheme (simpleEnv 4096 id false [])
      (simpleWorld [pathRoot, pathA] []) (Op.mkdir_recursive (fileScheme ++ pathABC) 0) rfl
      (by decide) (fun _ _ _ h => by simp [simpleEnv] at h) (fun _ h => h),
   by decide,
   translator_args_without_scheme (simpleEnv 4096 id false [])
      (simpleWorld [pathRoot, pathA] []) (Op.open (fileScheme ++ pathA) ['r'] 1) rfl
      (by decide) (fun _ _ _ h => by simp [simpleEnv] at h) (fun _ h => h),
   by decide⟩

/-- C8 at concrete inputs: with a cache holding `a`, `open` of `file:///a`
returns the cached handle after the translation and the cached open alone;
without a cache, the probe returns nothing and the physical open of `/a` is
attempted. -/
theorem open_cache_probe_precedence_witness :
    ((FileStreamWrapper.open (simpleEnv 4096 id true [['a']]) (fileScheme ++ pathA) ['r'] 0
        (simpleWorld [pathRoot] [])).1 = some (Handle.mem ['a'] ['r']) ∧
      eventsSince (simpleWorld [pathRoot] [])
        (FileStreamWrapper.open (simpleEnv 4096 id true [['a']]) (fileScheme ++ pathA) ['r'] 0
          (simpleWorld [pathRoot] [])).2 =
        [Event.translate false pathA, Event.memOpen ['a'] ['r'] true]) ∧
    (FileStreamWrapper.openFromCache (simpleEnv 4096 id false []) pathA ['r']
        (simpleWorld [pathRoot, pathA] [])).1 = none ∧
    (FileStreamWrapper.open (simpleEnv 4096 id false []) (fileScheme ++ pathA) ['r'] 1
        (simpleWorld [pathRoot, pathA] [])).1 = some (Handle.plain pathA ['r']) ∧
    eventsSince (simpleWorld [pathRoot, pathA] [])
        (FileStreamWrapper.open (simpleEnv 4096 id false []) (fileScheme ++ pathA) ['r'] 1
          (simpleWorld [pathRoot, pathA] [])).2 =
      [Event.resolveInclude pathA none, Event.translate false pathA,
       Event.plainOpen pathA ['r'] true] := by
  have h1 := (open_cache_probe_precedence (simpleEnv 4096 id true [['a']])
    (fileScheme ++ pathA) ['r'] 0 (simpleWorld [pathRoot] [])).1 rfl (by decide)
  have h2 := (open_cache_probe_precedence (simpleEnv 4096 id false [])
    (fileScheme ++ pathA) ['r'] 1 (simpleWorld [pathRoot, pathA] [])).2 rfl
  exact ⟨⟨h1.1, h1.2.1⟩, congrArg Prod.fst h2.1, by decide, by decide⟩

/-- C9 at concrete inputs, with a cache overlay configured and the
include-path option set.  `open` of `b`, found neither in the cache nor
under `/a` nor on disk, returns no handle and raises the one warning of the
physical file.  With `/a/b` on disk the include path rewrites `b` to `/a/b`,
whose physical open succeeds: a physical handle on `/a/b`, no warning.  With
`a` in the cache, `open` of `file:///a` returns the cached handle, no
warning. -/
theorem open_null_iff_physical_open_fails_witness :
    ((FileStreamWrapper.open (includeEnv []) ['b'] ['r'] 1
        (simpleWorld [pathRoot, pathA] [])).1 = none ∧
      warnings (eventsSince (simpleWorld [pathRoot, pathA] [])
        (FileStreamWrapper.open (includeEnv []) ['b'] ['r'] 1
          (simpleWorld [pathRoot, pathA] [])).2) = [['E']]) ∧
    ((FileStreamWrapper.open (includeEnv []) ['b'] ['r'] 1
        (simpleWorld [pathRoot, pathA, pathAB] [])).1 = some (Handle.plain pathAB ['r']) ∧
      warnings (eventsSince (simpleWorld [pathRoot, pathA, pathAB] [])
        (FileStreamWrapper.open (includeEnv []) ['b'] ['r'] 1
          (simpleWorld [pathRoot, pathA, pathAB] [])).2) = []) ∧
    ((FileStreamWrapper.open (includeEnv [['a']]) (fileScheme ++ pathA) ['r'] 1
        (simpleWorld [pathRoot] [])).1 = some (Handle.mem ['a'] ['r']) ∧
      warnings (eventsSince (simpleWorld [pathRoot] [])
        (FileStreamWrapper.open (includeEnv [['a']]) (fileScheme ++ pathA) ['r'] 1
          (simpleWorld [pathRoot] [])).2) = []) := by
  have hA := open_null_iff_physical_open_fails (includeEnv []) ['b'] ['r'] 1
    (simpleWorld [pathRoot, pathA] [])
  have hB := open_null_iff_physical_open_fails (includeEnv []) ['b'] ['r'] 1
    (simpleWorld [pathRoot, pathA, pathAB] [])
  have hC := open_null_iff_physical_open_fails (includeEnv [['a']]) (fileScheme ++ pathA)
    ['r'] 1 (simpleWorld [pathRoot] [])
  have nA : (FileStreamWrapper.open (includeEnv []) ['b'] ['r'] 1
      (simpleWorld [pathRoot, pathA] [])).1 = none := hA.1.2 (by decide)
  have nB : (FileStreamWrapper.open (includeEnv []) ['b'] ['r'] 1
      (simpleWorld [pathRoot, pathA, pathAB] [])).1 = some (Handle.plain pathAB ['r']) :=
    hB.2.2.2 (by decide) (by decide)
  have nC : (FileStreamWrapper.open (includeEnv [['a']]) (fileScheme ++ pathA) ['r'] 1
      (simpleWorld [pathRoot] [])).1 = some (Handle.mem ['a'] ['r']) :=
    hC.2.2.1 (by decide)
  refine ⟨⟨nA, ?_⟩, ⟨nB, ?_⟩, ⟨nC, ?_⟩⟩
  · rw [hA.2.1, if_pos nA]; rfl
  · rw [hB.2.1, if_neg (by rw [nB]; simp)]
  · rw [hC.2.1, if_neg (by rw [nC]; simp)]

end HPHP
